import Mathlib

/-!
# Render queues of the custom pipeline (`NativeRenderQueue.cpp`) and the debug renderer

A shallow embedding of `cc::render::RenderDrawQueue`, `RenderInstancingQueue` and
`NativeRenderQueue`, and of the vertex upload and the draw loop of `cc::DebugRenderer`
(`DebugRenderer.cpp`), followed by the properties proved about them.

Conventions of the embedding

* A C++ pointer is the identity of the object it points to, a natural number; `nullptr` is `0`.
* `uint32_t` fields are natural numbers; where the code converts to `uint32_t` or computes on
  it with a result that can leave the range, the result is reduced modulo `2 ^ 32` (`u32`).
* `float depth` is a rational number: finite floats are rationals, `<` on floats without NaN is
  the order of their values, and unary minus is exact. NaN has no counterpart here.
* Objects reached through pointers (sub-models, passes, instanced buffers, the pipeline-state
  cache) are read through the accessor functions of a `Scene`.
* A command buffer is the list of the commands recorded into it, oldest first; a recording
  function returns the commands it appends.
-/

namespace cc.render

/-- Identity of a C++ object (its address). -/
abbrev Ptr := Nat

/-- The null pointer. -/
def nullptr : Ptr := 0

/-! ## Data model -/

/-- `DrawInstance`, the record built by `RenderDrawQueue::add`
(`DrawInstance{subModel, priority, hash, depth, shaderId, passIdx}`). -/
structure DrawInstance where
  subModel : Ptr
  priority : Nat
  hash : Nat
  depth : ℚ
  shaderID : Nat
  passIndex : Nat
deriving DecidableEq, Repr

/-- `RenderDrawQueue`: the instance sequence. -/
structure RenderDrawQueue where
  instances : List DrawInstance
deriving DecidableEq, Repr

/-- Modelled from the spec: the descriptor-set slots `pipeline::globalSet`,
`pipeline::materialSet` and `pipeline::localSet` come from `pipeline/Define.h`, which is not among
the sources; the spec names a global, a pass material and a per-instance local descriptor set,
three different slots. -/
inductive SetIndex where
  | globalSet
  | materialSet
  | localSet
deriving DecidableEq, Repr

/-- A call recorded into a `gfx::CommandBuffer`. The three overloads of `bindDescriptorSet`
share one constructor: the dynamic offsets are empty for `(set, ds)`, the `count` values read
from the pointer for `(set, ds, count, offsets)`, and the vector for `(set, ds, offsets)`. -/
inductive Cmd where
  | bindPipelineState (pso : Ptr)
  | bindDescriptorSet (set : SetIndex) (descriptorSet : Ptr) (dynamicOffsets : List Nat)
  | bindInputAssembler (ia : Ptr)
  | draw (ia : Ptr)
deriving DecidableEq, Repr

/-- One element of `InstancedBuffer::getInstances()`, with the fields the queue reads. -/
structure InstancedItem where
  count : Nat
  shader : Ptr
  ia : Ptr
  descriptorSet : Ptr
deriving DecidableEq, Repr

/-- The part of a `pipeline::InstancedBuffer` the queue reads: `hasPendingModels()`,
`getInstances()`, `getPass()` and `dynamicOffsets()`. -/
structure InstancedBuffer where
  hasPendingModels : Bool
  instances : List InstancedItem
  pass : Ptr
  dynamicOffsets : List Nat
deriving DecidableEq, Repr

/-- The objects behind the pointers the queues hold, read through their accessors.
`getOrCreatePipelineState pass shader ia renderPass subpass` is the lookup of
`pipeline::PipelineStateManager`; it may return `nullptr`. -/
structure Scene where
  getInputAssembler : Ptr → Ptr
  getPass : Ptr → Nat → Ptr
  getShader : Ptr → Nat → Ptr
  getDescriptorSet : Ptr → Ptr
  passDescriptorSet : Ptr → Ptr
  getOrCreatePipelineState : Ptr → Ptr → Ptr → Ptr → Nat → Ptr
  instancedBuffer : Ptr → InstancedBuffer

/-- `RenderInstancingQueue`: the set `batches` and the vector `sortedBatches`. The set is held
as the list of its elements in iteration order; `emplace` keeps it free of duplicates. -/
structure RenderInstancingQueue where
  batches : List Ptr
  sortedBatches : List Ptr
deriving DecidableEq, Repr

/-- `NativeRenderQueue`, with the four members `NativeRenderQueue::sort` touches. -/
structure NativeRenderQueue where
  opaqueQueue : RenderDrawQueue
  transparentQueue : RenderDrawQueue
  opaqueInstancingQueue : RenderInstancingQueue
  transparentInstancingQueue : RenderInstancingQueue
deriving DecidableEq, Repr

/-! ## The standard library pieces the code calls -/

/-- `std::sort(first, last, comp)`. The C++ standard fixes its result only as a permutation of
the range in which no element is `comp`-less than an earlier one. The model is insertion sort,
the algorithm the library applies to short ranges: an element is placed in front of the first
element of the part already sorted that is not `comp`-less than it. Elements `comp` cannot tell
apart keep their order here; the standard leaves their order open and the library changes it in
ranges of more than 16 elements, so the properties below rest only on what every `std::sort`
gives: the result is a permutation of the range and is sorted. -/
def stdSort {α : Type} (comp : α → α → Bool) (l : List α) : List α :=
  l.insertionSort (fun a b => comp b a = false)

/-- `operator<` of `std::tuple` with three components `(uint32_t, float, uint32_t)`:
lexicographic, each component decided by its own `<`. -/
def tupleLess3 (a0 : Nat) (a1 : ℚ) (a2 : Nat) (b0 : Nat) (b1 : ℚ) (b2 : Nat) : Bool :=
  if a0 < b0 then true
  else if b0 < a0 then false
  else if a1 < b1 then true
  else if b1 < a1 then false
  else decide (a2 < b2)

/-- `operator<` of `std::tuple` with four components `(uint32_t, uint32_t, float, uint32_t)`. -/
def tupleLess4 (a0 a1 : Nat) (a2 : ℚ) (a3 : Nat) (b0 b1 : Nat) (b2 : ℚ) (b3 : Nat) : Bool :=
  if a0 < b0 then true
  else if b0 < a0 then false
  else tupleLess3 a1 a2 a3 b1 b2 b3

/-- Modelled from the spec: `emplace` on the set `batches`, whose declaration is in
`NativePipelineTypes.h`, not among the sources; the spec describes a deduplicating set of batch
references keyed by identity. Inserting a reference that is already present is a no-op; a new one
is added. Where a new element falls in the iteration order is not fixed by the container; here
it goes last. -/
def emplace (p : Ptr) (s : List Ptr) : List Ptr :=
  if p ∈ s then s else s ++ [p]

/-! ## `RenderDrawQueue` -/

/-- The comparator of `RenderDrawQueue::sortOpaqueOrCutout`:
`(lhs.hash, lhs.depth, lhs.shaderID) < (rhs.hash, rhs.depth, rhs.shaderID)`. -/
def opaqueLess (lhs rhs : DrawInstance) : Bool :=
  tupleLess3 lhs.hash lhs.depth lhs.shaderID rhs.hash rhs.depth rhs.shaderID

/-- The comparator of `RenderDrawQueue::sortTransparent`:
`(lhs.priority, lhs.hash, -lhs.depth, lhs.shaderID) <
 (rhs.priority, rhs.hash, -rhs.depth, rhs.shaderID)`. -/
def transparentLess (lhs rhs : DrawInstance) : Bool :=
  tupleLess4 lhs.priority lhs.hash (-lhs.depth) lhs.shaderID
    rhs.priority rhs.hash (-rhs.depth) rhs.shaderID

/-- `RenderDrawQueue::sortOpaqueOrCutout`. -/
def RenderDrawQueue.sortOpaqueOrCutout (q : RenderDrawQueue) : RenderDrawQueue :=
  { q with instances := stdSort opaqueLess q.instances }

/-- `RenderDrawQueue::sortTransparent`. -/
def RenderDrawQueue.sortTransparent (q : RenderDrawQueue) : RenderDrawQueue :=
  { q with instances := stdSort transparentLess q.instances }

/-- The body of the loop of `RenderDrawQueue::recordCommandBuffer` for one instance. -/
def recordDrawInstance (env : Scene) (renderPass : Ptr) (subpassIndex : Nat)
    (inst : DrawInstance) : List Cmd :=
  let subModel := inst.subModel
  let passIdx := inst.passIndex
  let inputAssembler := env.getInputAssembler subModel
  let pass := env.getPass subModel passIdx
  let shader := env.getShader subModel passIdx
  let pso := env.getOrCreatePipelineState pass shader inputAssembler renderPass subpassIndex
  [Cmd.bindPipelineState pso,
   Cmd.bindDescriptorSet SetIndex.materialSet (env.passDescriptorSet pass) [],
   Cmd.bindDescriptorSet SetIndex.localSet (env.getDescriptorSet subModel) [],
   Cmd.bindInputAssembler inputAssembler,
   Cmd.draw inputAssembler]

/-- The loop `for (const auto &instance : instances)` of
`RenderDrawQueue::recordCommandBuffer`. -/
def recordDrawInstances (env : Scene) (renderPass : Ptr) (subpassIndex : Nat) :
    List DrawInstance → List Cmd
  | [] => []
  | inst :: rest =>
    recordDrawInstance env renderPass subpassIndex inst ++
      recordDrawInstances env renderPass subpassIndex rest

/-- `RenderDrawQueue::recordCommandBuffer`, a `const` member: the queue after the call and the
commands appended to `cmdBuff`. -/
def RenderDrawQueue.recordCommandBuffer (q : RenderDrawQueue) (env : Scene) (renderPass : Ptr)
    (subpassIndex : Nat) : RenderDrawQueue × List Cmd :=
  (q, recordDrawInstances env renderPass subpassIndex q.instances)

/-! ## `RenderInstancingQueue` -/

/-- `RenderInstancingQueue::add`. -/
def RenderInstancingQueue.add (q : RenderInstancingQueue) (instancedBuffer : Ptr) :
    RenderInstancingQueue :=
  { q with batches := emplace instancedBuffer q.batches }

/-- `RenderInstancingQueue::sort`: `std::copy` of `batches` behind the present end of
`sortedBatches` (`reserve` changes no content). -/
def RenderInstancingQueue.sort (q : RenderInstancingQueue) : RenderInstancingQueue :=
  { q with sortedBatches := q.sortedBatches ++ q.batches }

/-- The loop of `RenderInstancingQueue::uploadBuffers` over a range of the set: the buffers
whose `uploadBuffers` is called, in call order. -/
def uploadLoop (env : Scene) : List Ptr → List Ptr
  | [] => []
  | instanceBuffer :: rest =>
    if (env.instancedBuffer instanceBuffer).hasPendingModels then
      instanceBuffer :: uploadLoop env rest
    else
      uploadLoop env rest

/-- `RenderInstancingQueue::uploadBuffers`: it iterates `batches`. -/
def RenderInstancingQueue.uploadBuffers (q : RenderInstancingQueue) (env : Scene) : List Ptr :=
  uploadLoop env q.batches

/-- The inner loop `for (const auto &instance : instances)` of
`RenderInstancingQueue::recordCommandBuffer`, started with the given `lastPSO`.
`ds` and `dynamicOffsets` are the nullable arguments of the call; `bufferOffsets` is
`instanceBuffer->dynamicOffsets()`. -/
def recordInstancedItems (env : Scene) (renderPass drawPass ds : Ptr) (offset : Nat)
    (dynamicOffsets : Option (List Nat)) (bufferOffsets : List Nat) :
    Ptr → List InstancedItem → List Cmd
  | _, [] => []
  | lastPSO, inst :: rest =>
    if inst.count = 0 then
      recordInstancedItems env renderPass drawPass ds offset dynamicOffsets bufferOffsets
        lastPSO rest
    else
      let pso := env.getOrCreatePipelineState drawPass inst.shader inst.ia renderPass 0
      (if lastPSO ≠ pso then [Cmd.bindPipelineState pso] else []) ++
      (if ds ≠ nullptr then [Cmd.bindDescriptorSet SetIndex.globalSet ds [offset]] else []) ++
      [match dynamicOffsets with
        | some offs => Cmd.bindDescriptorSet SetIndex.localSet inst.descriptorSet offs
        | none => Cmd.bindDescriptorSet SetIndex.localSet inst.descriptorSet bufferOffsets,
       Cmd.bindInputAssembler inst.ia,
       Cmd.draw inst.ia] ++
      recordInstancedItems env renderPass drawPass ds offset dynamicOffsets bufferOffsets
        (if lastPSO ≠ pso then pso else lastPSO) rest

/-- The outer loop `for (const auto *instanceBuffer : renderQueue)` of
`RenderInstancingQueue::recordCommandBuffer`. -/
def recordBatches (env : Scene) (renderPass ds : Ptr) (offset : Nat)
    (dynamicOffsets : Option (List Nat)) : List Ptr → List Cmd
  | [] => []
  | instanceBuffer :: rest =>
    if !(env.instancedBuffer instanceBuffer).hasPendingModels then
      recordBatches env renderPass ds offset dynamicOffsets rest
    else
      let instances := (env.instancedBuffer instanceBuffer).instances
      let drawPass := (env.instancedBuffer instanceBuffer).pass
      Cmd.bindDescriptorSet SetIndex.materialSet (env.passDescriptorSet drawPass) [] ::
        (recordInstancedItems env renderPass drawPass ds offset dynamicOffsets
            (env.instancedBuffer instanceBuffer).dynamicOffsets nullptr instances ++
          recordBatches env renderPass ds offset dynamicOffsets rest)

/-- `RenderInstancingQueue::recordCommandBuffer`: the commands appended to `cmdBuffer`. -/
def RenderInstancingQueue.recordCommandBuffer (q : RenderInstancingQueue) (env : Scene)
    (renderPass ds : Ptr) (offset : Nat) (dynamicOffsets : Option (List Nat)) : List Cmd :=
  recordBatches env renderPass ds offset dynamicOffsets q.sortedBatches

/-! ## `NativeRenderQueue` -/

/-- `NativeRenderQueue::sort`. -/
def NativeRenderQueue.sort (q : NativeRenderQueue) : NativeRenderQueue :=
  { q with
    opaqueQueue := q.opaqueQueue.sortOpaqueOrCutout
    transparentQueue := q.transparentQueue.sortTransparent
    opaqueInstancingQueue := q.opaqueInstancingQueue.sort
    transparentInstancingQueue := q.transparentInstancingQueue.sort }

/-! ## Vocabulary of the properties -/

/-- The pipeline states bound by the `bindPipelineState` commands of a stream, in order. -/
def boundPipelineStates (cmds : List Cmd) : List Ptr :=
  cmds.filterMap (fun c => match c with
    | Cmd.bindPipelineState pso => some pso
    | _ => none)

/-- The input assemblers drawn by the `draw` commands of a stream, in order. -/
def drawnInputAssemblers (cmds : List Cmd) : List Ptr :=
  cmds.filterMap (fun c => match c with
    | Cmd.draw ia => some ia
    | _ => none)

/-- The descriptor sets bound to the slot `materialSet` in a stream, in order. -/
def materialBinds (cmds : List Cmd) : List Ptr :=
  cmds.filterMap (fun c => match c with
    | Cmd.bindDescriptorSet SetIndex.materialSet d _ => some d
    | _ => none)

/-- The number of instance records of a batch with a nonzero count. -/
def nonzeroCount (b : InstancedBuffer) : Nat :=
  (b.instances.filter (fun inst => inst.count ≠ 0)).length

/-- The segment one entry of `sortedBatches` contributes to the stream of
`RenderInstancingQueue::recordCommandBuffer`: nothing without pending models, otherwise the
material-set bind followed by the commands of its instances. -/
def batchSegment (env : Scene) (renderPass ds : Ptr) (offset : Nat)
    (dynamicOffsets : Option (List Nat)) (instanceBuffer : Ptr) : List Cmd :=
  recordBatches env renderPass ds offset dynamicOffsets [instanceBuffer]

/-- A call made on a `RenderInstancingQueue` while a frame is collected. -/
inductive QueueCall where
  | add (instancedBuffer : Ptr)
  | sort
deriving DecidableEq, Repr

/-- Run one call. -/
def RenderInstancingQueue.call (q : RenderInstancingQueue) : QueueCall → RenderInstancingQueue
  | QueueCall.add p => q.add p
  | QueueCall.sort => q.sort

/-- The batches passed to the `add` calls of a call sequence, in order. -/
def addedBatches : List QueueCall → List Ptr
  | [] => []
  | QueueCall.add p :: rest => p :: addedBatches rest
  | QueueCall.sort :: rest => addedBatches rest

/-- A queue whose set and finalized sequence are empty. -/
def RenderInstancingQueue.empty : RenderInstancingQueue :=
  { batches := [], sortedBatches := [] }

/-- The tuple compared by `sortOpaqueOrCutout`, as an element of the lexicographic product. -/
def opaqueKey (d : DrawInstance) : ℕ ×ₗ ℚ ×ₗ ℕ :=
  toLex (d.hash, toLex (d.depth, d.shaderID))

/-- The tuple compared by `sortTransparent`, as an element of the lexicographic product. -/
def transparentKey (d : DrawInstance) : ℕ ×ₗ ℕ ×ₗ ℚ ×ₗ ℕ :=
  toLex (d.priority, toLex (d.hash, toLex (-d.depth, d.shaderID)))

/-- A scene for the concrete cases. The batches 1 and 2 have pending models and one instance
each, of count 1, with the same pass 5, shader 3 and input assembler 4; batch 3 has pending
models and two instances of count 0; every other batch is empty without pending models. The
pipeline state is a function of the arguments of the lookup. -/
def sampleScene : Scene where
  getInputAssembler := fun subModel => 100 + subModel
  getPass := fun subModel passIdx => 200 + 10 * subModel + passIdx
  getShader := fun subModel passIdx => 300 + 10 * subModel + passIdx
  getDescriptorSet := fun subModel => 400 + subModel
  passDescriptorSet := fun pass => 500 + pass
  getOrCreatePipelineState := fun pass shader ia renderPass subpass =>
    1000 + 100 * pass + 10 * shader + ia + renderPass + subpass
  instancedBuffer := fun p =>
    if p = 1 ∨ p = 2 then ⟨true, [⟨1, 3, 4, 6⟩], 5, []⟩
    else if p = 3 then ⟨true, [⟨0, 3, 4, 6⟩, ⟨0, 7, 8, 9⟩], 5, []⟩
    else ⟨false, [], 0, []⟩

/-! ## `RenderDrawQueue::add` -/

/-- A value converted to `uint32_t`, or the result of an operation on `uint32_t`: the number
reduced modulo `2 ^ 32`. -/
def u32 (n : Nat) : Nat := n % 2 ^ 32

/-- The accessors `RenderDrawQueue::add` reads besides those of `Scene`:
`model.getSubModels()[subModelIdx]`, `model.getPriority()`, `subModel->getPriority()` and
`pass->getPriority()`. -/
structure ModelData where
  getSubModels : Ptr → Nat → Ptr
  getPriority : Ptr → Nat
  subModelPriority : Ptr → Nat
  passPriority : Ptr → Nat

/-- The expression `(0 << 30) | (passPriority << 16) | (modelPriority << 8) | passIdx` of
`RenderDrawQueue::add`; the operands are `uint32_t`, so each shift is reduced modulo
`2 ^ 32`. -/
def sortKeyHash (passPriority modelPriority passIdx : Nat) : Nat :=
  u32 (0 <<< 30) ||| u32 (passPriority <<< 16) ||| u32 (modelPriority <<< 8) ||| passIdx

/-- `RenderDrawQueue::add`. The three `static_cast<uint32_t>` are `u32`; `emplace_back` puts
the new record behind the last one. -/
def RenderDrawQueue.add (q : RenderDrawQueue) (env : Scene) (models : ModelData) (model : Ptr)
    (depth : ℚ) (subModelIdx passIdx : Nat) : RenderDrawQueue :=
  let subModel := models.getSubModels model subModelIdx
  let pass := env.getPass subModel passIdx
  let passPriority := u32 (models.passPriority pass)
  let modelPriority := u32 (models.subModelPriority subModel)
  let shaderId := u32 (env.getShader subModel passIdx)
  let hash := sortKeyHash passPriority modelPriority passIdx
  let priority := models.getPriority model
  { q with instances := q.instances ++ [⟨subModel, priority, hash, depth, shaderId, passIdx⟩] }

/-- A list with every run of equal neighbours reduced to one element. -/
def dedupAdjacent : List Ptr → List Ptr
  | [] => []
  | [a] => [a]
  | a :: b :: rest =>
    if a = b then dedupAdjacent (b :: rest) else a :: dedupAdjacent (b :: rest)

/-- The pipeline state `RenderInstancingQueue::recordCommandBuffer` looks up for an instance of
a batch drawn with `drawPass`. -/
def instancePipelineState (env : Scene) (renderPass drawPass : Ptr) (inst : InstancedItem) :
    Ptr :=
  env.getOrCreatePipelineState drawPass inst.shader inst.ia renderPass 0

/-- A scene for the pipeline-state binds of one batch: batch 1 has pending models and, on
pass 5, the instances of counts 1, 2, 0, 1, 1 whose shaders and input assemblers give the
pipeline states 1534, 1534, (none, count 0), 1584, 1534. -/
def bindScene : Scene where
  getInputAssembler := fun subModel => 100 + subModel
  getPass := fun subModel passIdx => 200 + 10 * subModel + passIdx
  getShader := fun subModel passIdx => 300 + 10 * subModel + passIdx
  getDescriptorSet := fun subModel => 400 + subModel
  passDescriptorSet := fun pass => 500 + pass
  getOrCreatePipelineState := fun pass shader ia renderPass subpass =>
    1000 + 100 * pass + 10 * shader + ia + renderPass + subpass
  instancedBuffer := fun p =>
    if p = 1 then
      ⟨true, [⟨1, 3, 4, 6⟩, ⟨2, 3, 4, 6⟩, ⟨0, 7, 8, 9⟩, ⟨1, 8, 4, 6⟩, ⟨1, 3, 4, 6⟩], 5, []⟩
    else ⟨false, [], 0, []⟩

/-- Model data for the concrete cases: model 1 has priority 9 and the sub-models 11 and 12,
of priority 128; every pass has priority 128. -/
def sampleModels : ModelData where
  getSubModels := fun model subModelIdx => 10 * model + 1 + subModelIdx
  getPriority := fun model => 8 + model
  subModelPriority := fun _ => 128
  passPriority := fun _ => 128

end cc.render

/-! ## `DebugRenderer` (`DebugRenderer.cpp`) -/

namespace cc

open cc.render

/-- `gfx::DrawInfo`, with the two fields `DebugRenderer::render` sets. -/
structure DrawInfo where
  firstVertex : Nat
  vertexCount : Nat
deriving DecidableEq, Repr

/-- `DebugBatch`, with the members `update` and `render` read: `vertices` and
`descriptorSet`. A vertex is a token; its position, texture coordinate and colour are not read
by the code embedded here. -/
structure DebugBatch where
  vertices : List Nat
  descriptorSet : Ptr
deriving DecidableEq, Repr

/-- `DebugVertexBuffer`: `_maxVertices`, `_batches` and `_inputAssembler`. -/
structure DebugVertexBuffer where
  maxVertices : Nat
  batches : List DebugBatch
  inputAssembler : Ptr
deriving DecidableEq, Repr

/-- The call `_buffer->update(&vertices[0], size)` made by `DebugVertexBuffer::update`:
`count` vertices, `size` bytes. -/
structure BufferUpdate where
  count : Nat
  size : Nat
deriving DecidableEq, Repr

/-- A call recorded by `DebugRenderer::render`. -/
inductive DebugCmd where
  | bindPipelineState (pso : Ptr)
  | bindInputAssembler (ia : Ptr)
  | bindDescriptorSet (set : SetIndex) (descriptorSet : Ptr)
  | draw (drawInfo : DrawInfo)
deriving DecidableEq, Repr

/-- The loop of `DebugVertexBuffer::empty`. -/
def batchesEmpty : List DebugBatch → Bool
  | [] => true
  | batch :: rest => if !batch.vertices.isEmpty then false else batchesEmpty rest

/-- `DebugVertexBuffer::empty`. -/
def DebugVertexBuffer.empty (b : DebugVertexBuffer) : Bool :=
  batchesEmpty b.batches

/-- The loop of `DebugVertexBuffer::update` that gathers the vertices of all batches. -/
def gatherVertices : List DebugBatch → List Nat
  | [] => []
  | batch :: rest => batch.vertices ++ gatherVertices rest

/-- `DebugVertexBuffer::update`: nothing when the buffer is empty, otherwise the upload of the
first `count` gathered vertices. `sizeofDebugVertex` is `sizeof(DebugVertex)`. -/
def DebugVertexBuffer.update (b : DebugVertexBuffer) (sizeofDebugVertex : Nat) :
    Option BufferUpdate :=
  if b.empty then none
  else
    let vertices := gatherVertices b.batches
    let count := min (u32 vertices.length) b.maxVertices
    let size := u32 (count * sizeofDebugVertex)
    some ⟨count, size⟩

/-- `DebugVertexBuffer::reset`. -/
def DebugVertexBuffer.reset (b : DebugVertexBuffer) : DebugVertexBuffer :=
  { b with batches := b.batches.map (fun batch => { batch with vertices := [] }) }

/-- The loop `for (auto *batch : _buffer->_batches)` of `DebugRenderer::render`, entered with
the given `offset`. The subtraction and the addition are those of `uint32_t`. -/
def renderLoop (maxVertices : Nat) : Nat → List DebugBatch → List DebugCmd
  | _, [] => []
  | offset, batch :: rest =>
    let count := min (u32 batch.vertices.length) (u32 (maxVertices + 2 ^ 32 - offset))
    if count = 0 then []
    else
      DebugCmd.bindDescriptorSet SetIndex.materialSet batch.descriptorSet ::
        DebugCmd.draw ⟨offset, count⟩ ::
          renderLoop maxVertices (u32 (offset + count)) rest

/-- `DebugRenderer`, with `_buffer` (`none` for `nullptr`) and the pass and shader its scene
data hands out. -/
structure DebugRenderer where
  buffer : Option DebugVertexBuffer
  pass : Ptr
  shader : Ptr
deriving DecidableEq, Repr

/-- `DebugRenderer::render`: the renderer after the call, the upload made by
`_buffer->update()`, and the commands recorded into `cmdBuff`. -/
def DebugRenderer.render (r : DebugRenderer) (env : Scene) (renderPass : Ptr)
    (sizeofDebugVertex : Nat) : DebugRenderer × Option BufferUpdate × List DebugCmd :=
  match r.buffer with
  | none => (r, none, [])
  | some buffer =>
    if buffer.empty then (r, none, [])
    else
      let written := buffer.update sizeofDebugVertex
      let pso := env.getOrCreatePipelineState r.pass r.shader buffer.inputAssembler renderPass 0
      let cmds :=
        DebugCmd.bindPipelineState pso ::
          DebugCmd.bindInputAssembler buffer.inputAssembler ::
            renderLoop buffer.maxVertices 0 buffer.batches
      ({ r with buffer := some buffer.reset }, written, cmds)

/-- The draws of a stream, in order. -/
def drawInfos (cmds : List DebugCmd) : List DrawInfo :=
  cmds.filterMap (fun c => match c with
    | DebugCmd.draw d => some d
    | _ => none)

/-- The number of vertices the draws of a stream cover. -/
def drawnVertexCount (cmds : List DebugCmd) : Nat :=
  ((drawInfos cmds).map (fun d => d.vertexCount)).sum

/-- The number of vertices held by a list of batches. -/
def totalVertices (batches : List DebugBatch) : Nat :=
  (batches.map (fun batch => batch.vertices.length)).sum

/-- Every draw of the list covers at least one vertex and ends at or before `maxVertices`; the
first starts at `offset` and each later one where the one before it ended. -/
def contiguousFrom (maxVertices : Nat) : Nat → List DrawInfo → Prop
  | _, [] => True
  | offset, d :: rest =>
    d.firstVertex = offset ∧ 0 < d.vertexCount ∧ d.firstVertex + d.vertexCount ≤ maxVertices ∧
      contiguousFrom maxVertices (d.firstVertex + d.vertexCount) rest

end cc

namespace cc.render

/-! ## Sorting lemmas -/

section SortLemmas

variable {α κ : Type} [LinearOrder κ]

/-- With a comparator that is the strict order of a key, every element of the result of
`stdSort` has a key at most that of every later element. -/
theorem stdSort_pairwise_key (key : α → κ) (comp : α → α → Bool)
    (h : ∀ a b, comp a b = true ↔ key a < key b) (l : List α) :
    (stdSort comp l).Pairwise (fun a b => key a ≤ key b) := by
  have hr : ∀ a b, comp b a = false ↔ key a ≤ key b := by
    intro a b
    rw [← not_lt, ← h b a]
    cases comp b a <;> simp
  haveI : IsTotal α (fun a b => comp b a = false) :=
    ⟨fun a b => by rw [hr, hr]; exact le_total _ _⟩
  haveI : IsTrans α (fun a b => comp b a = false) :=
    ⟨fun a b c => by rw [hr, hr, hr]; exact le_trans⟩
  have hs := List.sorted_insertionSort (fun a b => comp b a = false) l
  exact List.Pairwise.imp (fun {a b} hab => (hr a b).1 hab) hs

/-- Two orderings of the same elements that are both sorted by the key show the same sequence
of keys: sorting again, by whatever algorithm, can only exchange elements of equal key. -/
theorem sorted_perm_keys_eq (key : α → κ) (l₁ l₂ : List α) (hp : l₁.Perm l₂)
    (h₁ : l₁.Pairwise (fun a b => key a ≤ key b))
    (h₂ : l₂.Pairwise (fun a b => key a ≤ key b)) :
    l₁.map key = l₂.map key := by
  have s₁ : (l₁.map key).Sorted (fun a b => a ≤ b) := by
    unfold List.Sorted
    rw [List.pairwise_map]
    exact h₁
  have s₂ : (l₂.map key).Sorted (fun a b => a ≤ b) := by
    unfold List.Sorted
    rw [List.pairwise_map]
    exact h₂
  exact List.eq_of_perm_of_sorted (hp.map key) s₁ s₂

/-- Two orderings of the same elements that are both sorted by the key are the same sequence
when no two different elements share a key: the sorted order is then unique. -/
theorem sorted_perm_eq_of_key_inj (key : α → κ) (l₁ l₂ : List α) (hp : l₁.Perm l₂)
    (h₁ : l₁.Pairwise (fun a b => key a ≤ key b))
    (h₂ : l₂.Pairwise (fun a b => key a ≤ key b))
    (hinj : ∀ a ∈ l₁, ∀ b ∈ l₁, key a = key b → a = b) :
    l₁ = l₂ := by
  haveI : IsAntisymm α (fun a b => key a ≤ key b ∧ (key a = key b → a = b)) :=
    ⟨fun a b hab hba => hab.2 (le_antisymm hab.1 hba.1)⟩
  have t₁ : l₁.Sorted (fun a b => key a ≤ key b ∧ (key a = key b → a = b)) :=
    List.Pairwise.imp_of_mem (fun {a b} ha hb hab => ⟨hab, hinj a ha b hb⟩) h₁
  have t₂ : l₂.Sorted (fun a b => key a ≤ key b ∧ (key a = key b → a = b)) :=
    List.Pairwise.imp_of_mem
      (fun {a b} ha hb hab => ⟨hab, hinj a (hp.symm.subset ha) b (hp.symm.subset hb)⟩) h₂
  exact List.eq_of_perm_of_sorted hp t₁ t₂

end SortLemmas

/-- The result of `stdSort` is a permutation of its argument, for every comparator. -/
theorem stdSort_perm {α : Type} (comp : α → α → Bool) (l : List α) :
    (stdSort comp l).Perm l :=
  List.perm_insertionSort _ l

theorem tupleLess3_iff (a0 : Nat) (a1 : ℚ) (a2 : Nat) (b0 : Nat) (b1 : ℚ) (b2 : Nat) :
    tupleLess3 a0 a1 a2 b0 b1 b2 = true ↔
      (toLex (a0, toLex (a1, a2)) : ℕ ×ₗ ℚ ×ₗ ℕ) < toLex (b0, toLex (b1, b2)) := by
  unfold tupleLess3
  simp only [Prod.Lex.lt_iff, ofLex_toLex]
  split_ifs with h1 h2 h3 h4
  · simp [h1]
  · have : ¬ a0 = b0 := by omega
    simp [h1, this]
  · have : a0 = b0 := by omega
    simp [this, h3]
  · have : a0 = b0 := by omega
    have h5 : ¬ a1 = b1 := ne_of_gt h4
    simp [this, h3, h5]
  · have : a0 = b0 := by omega
    have h5 : a1 = b1 := le_antisymm (not_lt.1 h4) (not_lt.1 h3)
    simp [this, h5]

theorem opaqueLess_iff (a b : DrawInstance) :
    opaqueLess a b = true ↔ opaqueKey a < opaqueKey b :=
  tupleLess3_iff _ _ _ _ _ _

theorem transparentLess_iff (a b : DrawInstance) :
    transparentLess a b = true ↔ transparentKey a < transparentKey b := by
  unfold transparentLess tupleLess4 transparentKey
  rw [Prod.Lex.lt_iff]
  simp only [ofLex_toLex]
  split_ifs with h1 h2
  · simp [h1]
  · have : ¬ a.priority = b.priority := by omega
    simp [h1, this]
  · have : a.priority = b.priority := by omega
    rw [tupleLess3_iff]
    simp [this]

theorem opaqueKey_eq_iff (a b : DrawInstance) :
    opaqueKey a = opaqueKey b ↔ a.hash = b.hash ∧ a.depth = b.depth ∧ a.shaderID = b.shaderID := by
  unfold opaqueKey
  constructor
  · intro h
    have h1 := congrArg (fun k => (ofLex k).1) h
    have h2 := congrArg (fun k => (ofLex (ofLex k).2).1) h
    have h3 := congrArg (fun k => (ofLex (ofLex k).2).2) h
    exact ⟨h1, h2, h3⟩
  · rintro ⟨h1, h2, h3⟩
    rw [h1, h2, h3]

theorem transparentKey_eq_iff (a b : DrawInstance) :
    transparentKey a = transparentKey b ↔
      a.priority = b.priority ∧ a.hash = b.hash ∧ a.depth = b.depth ∧
        a.shaderID = b.shaderID := by
  unfold transparentKey
  constructor
  · intro h
    have h1 := congrArg (fun k => (ofLex k).1) h
    have h2 := congrArg (fun k => (ofLex (ofLex k).2).1) h
    have h3 := congrArg (fun k => (ofLex (ofLex (ofLex k).2).2).1) h
    have h4 := congrArg (fun k => (ofLex (ofLex (ofLex k).2).2).2) h
    exact ⟨h1, h2, neg_inj.1 h3, h4⟩
  · rintro ⟨h1, h2, h3, h4⟩
    rw [h1, h2, h3, h4]

/-! ## Order of the draw queues -/

/-- C1: after `RenderDrawQueue::sortOpaqueOrCutout` the instance sequence is non-decreasing in
the lexicographic order of `(hash, depth, shaderID)`: for every two positions, hence for
neighbours, `hash` does not decrease, with equal `hash` the `depth` does not decrease, and with
equal `hash` and `depth` the `shaderID` does not decrease. The instances A(sortKey 10, depth 5),
B(sortKey 10, depth 2), C(sortKey 5, depth 9), told apart by their sub-models 1, 2, 3, come out
as C, B, A. -/
theorem sortOpaqueOrCutout_sorted :
    (∀ q : RenderDrawQueue,
      q.sortOpaqueOrCutout.instances.Pairwise (fun a b =>
        a.hash ≤ b.hash ∧
        (a.hash = b.hash → a.depth ≤ b.depth) ∧
        (a.hash = b.hash → a.depth = b.depth → a.shaderID ≤ b.shaderID))) ∧
    (RenderDrawQueue.sortOpaqueOrCutout
        ⟨[⟨1, 0, 10, 5, 0, 0⟩, ⟨2, 0, 10, 2, 0, 0⟩, ⟨3, 0, 5, 9, 0, 0⟩]⟩).instances =
      [⟨3, 0, 5, 9, 0, 0⟩, ⟨2, 0, 10, 2, 0, 0⟩, ⟨1, 0, 10, 5, 0, 0⟩] := by
  refine ⟨fun q => ?_, by decide⟩
  have hs := stdSort_pairwise_key opaqueKey opaqueLess opaqueLess_iff q.instances
  refine List.Pairwise.imp (fun {a b} hab => ?_) hs
  simp only [opaqueKey, Prod.Lex.le_iff, ofLex_toLex] at hab
  rcases hab with h | ⟨h, h2 | ⟨h2, h3⟩⟩
  · exact ⟨le_of_lt h, fun e => absurd e (ne_of_lt h), fun e => absurd e (ne_of_lt h)⟩
  · exact ⟨le_of_eq h, fun _ => le_of_lt h2, fun _ e => absurd e (ne_of_lt h2)⟩
  · exact ⟨le_of_eq h, fun _ => le_of_eq h2, fun _ _ => h3⟩

/-- C2: after `RenderDrawQueue::sortTransparent` the instance sequence is non-decreasing in the
lexicographic order of `(priority, hash, -depth, shaderID)`: for every two positions, hence for
neighbours, `priority` does not decrease, with equal `priority` the `hash` does not decrease,
with equal `priority` and `hash` the `depth` does not increase (back to front), and with all
three equal the `shaderID` does not decrease. The instances X(priority 0, sortKey 1, depth 3)
and Y(priority 0, sortKey 1, depth 7), told apart by their sub-models 1 and 2, come out as
Y, X. -/
theorem sortTransparent_sorted :
    (∀ q : RenderDrawQueue,
      q.sortTransparent.instances.Pairwise (fun a b =>
        a.priority ≤ b.priority ∧
        (a.priority = b.priority → a.hash ≤ b.hash) ∧
        (a.priority = b.priority → a.hash = b.hash → b.depth ≤ a.depth) ∧
        (a.priority = b.priority → a.hash = b.hash → a.depth = b.depth →
          a.shaderID ≤ b.shaderID))) ∧
    (RenderDrawQueue.sortTransparent
        ⟨[⟨1, 0, 1, 3, 0, 0⟩, ⟨2, 0, 1, 7, 0, 0⟩]⟩).instances =
      [⟨2, 0, 1, 7, 0, 0⟩, ⟨1, 0, 1, 3, 0, 0⟩] := by
  refine ⟨fun q => ?_, by decide⟩
  have hs := stdSort_pairwise_key transparentKey transparentLess transparentLess_iff q.instances
  refine List.Pairwise.imp (fun {a b} hab => ?_) hs
  simp only [transparentKey, Prod.Lex.le_iff, ofLex_toLex, neg_lt_neg_iff, neg_inj] at hab
  rcases hab with h | ⟨h, h1 | ⟨h1, h2 | ⟨h2, h3⟩⟩⟩
  · exact ⟨le_of_lt h, fun e => absurd e (ne_of_lt h), fun e => absurd e (ne_of_lt h),
      fun e => absurd e (ne_of_lt h)⟩
  · exact ⟨le_of_eq h, fun _ => le_of_lt h1, fun _ e => absurd e (ne_of_lt h1),
      fun _ e => absurd e (ne_of_lt h1)⟩
  · exact ⟨le_of_eq h, fun _ => le_of_eq h1, fun _ _ => le_of_lt h2,
      fun _ _ e => absurd e (ne_of_gt h2)⟩
  · exact ⟨le_of_eq h, fun _ => le_of_eq h1, fun _ _ => le_of_eq h2.symm, fun _ _ _ => h3⟩

/-- C9: `sortOpaqueOrCutout` and `sortTransparent` only reorder. The result of either is a
permutation of the instance sequence it was given: the length is the same and every
`DrawInstance`, compared on all six fields, occurs as often as before. -/
theorem sort_only_reorders (q : RenderDrawQueue) :
    (q.sortOpaqueOrCutout.instances.Perm q.instances ∧
      q.sortOpaqueOrCutout.instances.length = q.instances.length ∧
      ∀ d : DrawInstance, q.sortOpaqueOrCutout.instances.count d = q.instances.count d) ∧
    (q.sortTransparent.instances.Perm q.instances ∧
      q.sortTransparent.instances.length = q.instances.length ∧
      ∀ d : DrawInstance, q.sortTransparent.instances.count d = q.instances.count d) := by
  have ho : q.sortOpaqueOrCutout.instances.Perm q.instances := stdSort_perm _ _
  have ht : q.sortTransparent.instances.Perm q.instances := stdSort_perm _ _
  exact ⟨⟨ho, ho.length_eq, fun d => ho.count_eq d⟩, ⟨ht, ht.length_eq, fun d => ht.count_eq d⟩⟩

/-! ## The batch set and the finalized sequence -/

theorem mem_emplace (p x : Ptr) (s : List Ptr) : x ∈ emplace p s ↔ x = p ∨ x ∈ s := by
  unfold emplace
  split_ifs with h
  · constructor
    · exact fun hx => Or.inr hx
    · rintro (rfl | hx)
      · exact h
      · exact hx
  · simp [or_comm]

theorem nodup_emplace (p : Ptr) (s : List Ptr) (hs : s.Nodup) : (emplace p s).Nodup := by
  unfold emplace
  split_ifs with h
  · exact hs
  · exact List.Nodup.append hs (List.nodup_singleton p) (by simpa using h)

/-- The set after a sequence of calls holds the batches of its `add` calls and what it held
before; `sort` calls do not touch it. -/
theorem batches_after_calls (calls : List QueueCall) :
    ∀ q : RenderInstancingQueue,
      (q.batches.Nodup → (calls.foldl RenderInstancingQueue.call q).batches.Nodup) ∧
      ∀ x, x ∈ (calls.foldl RenderInstancingQueue.call q).batches ↔
        x ∈ q.batches ∨ x ∈ addedBatches calls := by
  induction calls with
  | nil => intro q; simp [addedBatches]
  | cons c rest ih =>
    intro q
    cases c with
    | add p =>
      obtain ⟨h1, h2⟩ := ih (q.add p)
      refine ⟨fun hq => h1 (nodup_emplace p _ hq), fun x => ?_⟩
      simp only [List.foldl_cons, RenderInstancingQueue.call, addedBatches, List.mem_cons]
      rw [h2 x]
      simp only [RenderInstancingQueue.add, mem_emplace]
      tauto
    | sort =>
      obtain ⟨h1, h2⟩ := ih q.sort
      refine ⟨fun hq => h1 hq, fun x => ?_⟩
      simp only [List.foldl_cons, RenderInstancingQueue.call, addedBatches]
      rw [h2 x]
      simp [RenderInstancingQueue.sort]

/-- A run of `add` calls leaves the finalized sequence as it was. -/
theorem sortedBatches_after_adds (ps : List Ptr) :
    ∀ q : RenderInstancingQueue,
      (ps.foldl RenderInstancingQueue.add q).sortedBatches = q.sortedBatches ∧
      (ps.foldl RenderInstancingQueue.add q).batches =
        ((ps.map QueueCall.add).foldl RenderInstancingQueue.call q).batches := by
  induction ps with
  | nil => intro q; simp
  | cons p rest ih =>
    intro q
    obtain ⟨h1, h2⟩ := ih (q.add p)
    exact ⟨by simpa [RenderInstancingQueue.add] using h1,
      by simpa [RenderInstancingQueue.call] using h2⟩

theorem addedBatches_map_add (ps : List Ptr) : addedBatches (ps.map QueueCall.add) = ps := by
  induction ps with
  | nil => rfl
  | cons p rest ih => simp [addedBatches, ih]

theorem uploadLoop_eq_filter (env : Scene) (l : List Ptr) :
    uploadLoop env l = l.filter (fun p => (env.instancedBuffer p).hasPendingModels) := by
  induction l with
  | nil => rfl
  | cons p rest ih =>
    unfold uploadLoop
    by_cases h : (env.instancedBuffer p).hasPendingModels = true
    · simp [h, ih]
    · simp [h, ih]

theorem count_of_nodup (l : List Ptr) (hl : l.Nodup) (p : Ptr) :
    l.count p = if p ∈ l then 1 else 0 := by
  split_ifs with h
  · exact List.count_eq_one_of_mem hl h
  · exact List.count_eq_zero_of_not_mem h

/-- C3: starting from an empty set and an empty finalized sequence, after any sequence of
`add` calls followed by one `sort()`, `sortedBatches` has no repetition, holds exactly the
batches that were added, each of them once however often it was added, and its length is the
number of distinct batches added. Adding P, P, Q (the batches 1, 1, 2) gives two entries, P and
Q once each. -/
theorem instancing_sort_dedup :
    (∀ ps : List Ptr,
      (ps.foldl RenderInstancingQueue.add RenderInstancingQueue.empty).sort.sortedBatches.Nodup ∧
      (∀ p, p ∈ (ps.foldl RenderInstancingQueue.add
          RenderInstancingQueue.empty).sort.sortedBatches ↔ p ∈ ps) ∧
      (∀ p, (ps.foldl RenderInstancingQueue.add
          RenderInstancingQueue.empty).sort.sortedBatches.count p = if p ∈ ps then 1 else 0) ∧
      (ps.foldl RenderInstancingQueue.add
          RenderInstancingQueue.empty).sort.sortedBatches.length = ps.dedup.length) ∧
    (([1, 1, 2].foldl RenderInstancingQueue.add
          RenderInstancingQueue.empty).sort.sortedBatches.length = 2 ∧
      ([1, 1, 2].foldl RenderInstancingQueue.add
          RenderInstancingQueue.empty).sort.sortedBatches.count 1 = 1 ∧
      ([1, 1, 2].foldl RenderInstancingQueue.add
          RenderInstancingQueue.empty).sort.sortedBatches.count 2 = 1) := by
  refine ⟨fun ps => ?_, by decide⟩
  obtain ⟨hsb, hb⟩ := sortedBatches_after_adds ps RenderInstancingQueue.empty
  obtain ⟨hnd, hmem⟩ := batches_after_calls (ps.map QueueCall.add) RenderInstancingQueue.empty
  rw [← hb, addedBatches_map_add] at hmem
  rw [← hb] at hnd
  have hfin : (ps.foldl RenderInstancingQueue.add RenderInstancingQueue.empty).sort.sortedBatches
      = (ps.foldl RenderInstancingQueue.add RenderInstancingQueue.empty).batches := by
    simp only [RenderInstancingQueue.sort, hsb]
    simp [RenderInstancingQueue.empty]
  rw [hfin]
  have hnd2 := hnd (by simp [RenderInstancingQueue.empty])
  have hmem2 : ∀ p, p ∈ (ps.foldl RenderInstancingQueue.add RenderInstancingQueue.empty).batches
      ↔ p ∈ ps := by
    intro p
    rw [hmem p]
    simp [RenderInstancingQueue.empty]
  refine ⟨hnd2, hmem2, fun p => ?_, ?_⟩
  · rw [count_of_nodup _ hnd2 p]
    simp only [hmem2 p]
  · apply List.Perm.length_eq
    rw [List.perm_ext_iff_of_nodup hnd2 (List.nodup_dedup ps)]
    intro p
    rw [hmem2 p, List.mem_dedup]

/-- C10: whatever sequence of `add` and `sort` calls a queue that started empty has received,
`uploadBuffers` calls the upload of a batch once when the batch was added and has pending
models, and not at all otherwise. -/
theorem uploadBuffers_once (env : Scene) (calls : List QueueCall) (p : Ptr) :
    ((calls.foldl RenderInstancingQueue.call RenderInstancingQueue.empty).uploadBuffers env).count p
      = if p ∈ addedBatches calls ∧ (env.instancedBuffer p).hasPendingModels = true
        then 1 else 0 := by
  obtain ⟨hnd, hmem⟩ := batches_after_calls calls RenderInstancingQueue.empty
  have hnd2 := hnd (by simp [RenderInstancingQueue.empty])
  unfold RenderInstancingQueue.uploadBuffers
  rw [uploadLoop_eq_filter, count_of_nodup _ (hnd2.filter _) p]
  simp only [List.mem_filter, hmem p]
  simp [RenderInstancingQueue.empty]

/-! ## Sorting twice -/

/-- C4, as stated, fails: with the batch 1 in the set of the first instancing queue and nothing
else anywhere, one `sort()` leaves `sortedBatches` as `[1]` and a second one as `[1, 1]`. -/
theorem sort_twice_counterexample :
    (NativeRenderQueue.sort ⟨⟨[]⟩, ⟨[]⟩, ⟨[1], []⟩, ⟨[], []⟩⟩).opaqueInstancingQueue.sortedBatches
        = [1] ∧
    (NativeRenderQueue.sort (NativeRenderQueue.sort
        ⟨⟨[]⟩, ⟨[]⟩, ⟨[1], []⟩, ⟨[], []⟩⟩)).opaqueInstancingQueue.sortedBatches = [1, 1] ∧
    NativeRenderQueue.sort (NativeRenderQueue.sort ⟨⟨[]⟩, ⟨[]⟩, ⟨[1], []⟩, ⟨[], []⟩⟩) ≠
      NativeRenderQueue.sort ⟨⟨[]⟩, ⟨[]⟩, ⟨[1], []⟩, ⟨[], []⟩⟩ := by
  decide

/-- C4, amended: after a second `NativeRenderQueue::sort()` with no `add` in between, each of
the two instance sequences is a permutation of what the first call left and shows the same
sequence of sort tuples; it is the very same sequence when no two different instances of the
queue agree on the whole tuple, the order of instances that do agree being left open by
`std::sort`. The two batch sets are as the first call left them, and the content of each is
appended once more to the `sortedBatches` of its instancing queue, which is therefore the same
after both calls exactly when its batch set is empty. -/
theorem sort_twice (q : NativeRenderQueue) :
    (q.sort.sort.opaqueQueue.instances.Perm q.sort.opaqueQueue.instances ∧
      q.sort.sort.opaqueQueue.instances.map (fun d => (d.hash, d.depth, d.shaderID)) =
        q.sort.opaqueQueue.instances.map (fun d => (d.hash, d.depth, d.shaderID)) ∧
      ((∀ a ∈ q.opaqueQueue.instances, ∀ b ∈ q.opaqueQueue.instances,
          a.hash = b.hash → a.depth = b.depth → a.shaderID = b.shaderID → a = b) →
        q.sort.sort.opaqueQueue = q.sort.opaqueQueue)) ∧
    (q.sort.sort.transparentQueue.instances.Perm q.sort.transparentQueue.instances ∧
      q.sort.sort.transparentQueue.instances.map
          (fun d => (d.priority, d.hash, d.depth, d.shaderID)) =
        q.sort.transparentQueue.instances.map
          (fun d => (d.priority, d.hash, d.depth, d.shaderID)) ∧
      ((∀ a ∈ q.transparentQueue.instances, ∀ b ∈ q.transparentQueue.instances,
          a.priority = b.priority → a.hash = b.hash → a.depth = b.depth →
            a.shaderID = b.shaderID → a = b) →
        q.sort.sort.transparentQueue = q.sort.transparentQueue)) ∧
    q.sort.sort.opaqueInstancingQueue.batches = q.sort.opaqueInstancingQueue.batches ∧
    q.sort.sort.transparentInstancingQueue.batches =
      q.sort.transparentInstancingQueue.batches ∧
    q.sort.sort.opaqueInstancingQueue.sortedBatches =
      q.sort.opaqueInstancingQueue.sortedBatches ++ q.opaqueInstancingQueue.batches ∧
    q.sort.sort.transparentInstancingQueue.sortedBatches =
      q.sort.transparentInstancingQueue.sortedBatches ++ q.transparentInstancingQueue.batches ∧
    (q.sort.sort.opaqueInstancingQueue.sortedBatches =
        q.sort.opaqueInstancingQueue.sortedBatches ↔ q.opaqueInstancingQueue.batches = []) ∧
    (q.sort.sort.transparentInstancingQueue.sortedBatches =
        q.sort.transparentInstancingQueue.sortedBatches ↔
      q.transparentInstancingQueue.batches = []) := by
  have po₁ : (stdSort opaqueLess q.opaqueQueue.instances).Perm q.opaqueQueue.instances :=
    stdSort_perm _ _
  have po₂ : (stdSort opaqueLess (stdSort opaqueLess q.opaqueQueue.instances)).Perm
      (stdSort opaqueLess q.opaqueQueue.instances) := stdSort_perm _ _
  have so₁ := stdSort_pairwise_key opaqueKey opaqueLess opaqueLess_iff q.opaqueQueue.instances
  have so₂ := stdSort_pairwise_key opaqueKey opaqueLess opaqueLess_iff
    (stdSort opaqueLess q.opaqueQueue.instances)
  have pt₁ : (stdSort transparentLess q.transparentQueue.instances).Perm
      q.transparentQueue.instances := stdSort_perm _ _
  have pt₂ : (stdSort transparentLess (stdSort transparentLess
      q.transparentQueue.instances)).Perm
      (stdSort transparentLess q.transparentQueue.instances) := stdSort_perm _ _
  have st₁ := stdSort_pairwise_key transparentKey transparentLess transparentLess_iff
    q.transparentQueue.instances
  have st₂ := stdSort_pairwise_key transparentKey transparentLess transparentLess_iff
    (stdSort transparentLess q.transparentQueue.instances)
  refine ⟨⟨po₂, ?_, fun hinj => ?_⟩, ⟨pt₂, ?_, fun hinj => ?_⟩, rfl, rfl, rfl, rfl, ?_, ?_⟩
  · have hk := sorted_perm_keys_eq opaqueKey _ _ po₂ so₂ so₁
    have hm := congrArg
      (List.map (fun k : ℕ ×ₗ ℚ ×ₗ ℕ => ((ofLex k).1, (ofLex (ofLex k).2).1, (ofLex (ofLex k).2).2)))
      hk
    simpa [List.map_map, Function.comp, opaqueKey, NativeRenderQueue.sort,
      RenderDrawQueue.sortOpaqueOrCutout] using hm
  · have he := sorted_perm_eq_of_key_inj opaqueKey _ _ po₂ so₂ so₁ (by
      intro a ha b hb hab
      obtain ⟨h1, h2, h3⟩ := (opaqueKey_eq_iff a b).1 hab
      exact hinj a (po₁.subset (po₂.subset ha)) b (po₁.subset (po₂.subset hb)) h1 h2 h3)
    exact congrArg RenderDrawQueue.mk he
  · have hk := sorted_perm_keys_eq transparentKey _ _ pt₂ st₂ st₁
    have hm := congrArg
      (List.map (fun k : ℕ ×ₗ ℕ ×ₗ ℚ ×ₗ ℕ =>
        ((ofLex k).1, (ofLex (ofLex k).2).1, -(ofLex (ofLex (ofLex k).2).2).1,
          (ofLex (ofLex (ofLex k).2).2).2)))
      hk
    have hf : ((fun k : ℕ ×ₗ ℕ ×ₗ ℚ ×ₗ ℕ =>
        ((ofLex k).1, (ofLex (ofLex k).2).1, -(ofLex (ofLex (ofLex k).2).2).1,
          (ofLex (ofLex (ofLex k).2).2).2)) ∘ transparentKey) =
        fun d => (d.priority, d.hash, d.depth, d.shaderID) := by
      funext d
      show (d.priority, d.hash, - -d.depth, d.shaderID) = (d.priority, d.hash, d.depth, d.shaderID)
      rw [neg_neg]
    rw [List.map_map, List.map_map, hf] at hm
    exact hm
  · have he := sorted_perm_eq_of_key_inj transparentKey _ _ pt₂ st₂ st₁ (by
      intro a ha b hb hab
      obtain ⟨h1, h2, h3, h4⟩ := (transparentKey_eq_iff a b).1 hab
      exact hinj a (pt₁.subset (pt₂.subset ha)) b (pt₁.subset (pt₂.subset hb)) h1 h2 h3 h4)
    exact congrArg RenderDrawQueue.mk he
  · simp [NativeRenderQueue.sort, RenderInstancingQueue.sort]
  · simp [NativeRenderQueue.sort, RenderInstancingQueue.sort]

/-- C4 at a concrete queue: the opaque instances A, B, C and the transparent instances X, Y of
the ordering examples differ in their sort tuples, so both instance sequences are the same
after one `sort()` and after two, while the finalized sequence of the batch set `[1]` is `[1]`
after one call and `[1, 1]` after two. -/
theorem sort_twice_witness :
    (∀ a ∈ [(⟨1, 0, 10, 5, 0, 0⟩ : DrawInstance), ⟨2, 0, 10, 2, 0, 0⟩, ⟨3, 0, 5, 9, 0, 0⟩],
      ∀ b ∈ [(⟨1, 0, 10, 5, 0, 0⟩ : DrawInstance), ⟨2, 0, 10, 2, 0, 0⟩, ⟨3, 0, 5, 9, 0, 0⟩],
        a.hash = b.hash → a.depth = b.depth → a.shaderID = b.shaderID → a = b) ∧
    (NativeRenderQueue.sort (NativeRenderQueue.sort
        ⟨⟨[⟨1, 0, 10, 5, 0, 0⟩, ⟨2, 0, 10, 2, 0, 0⟩, ⟨3, 0, 5, 9, 0, 0⟩]⟩,
          ⟨[⟨1, 0, 1, 3, 0, 0⟩, ⟨2, 0, 1, 7, 0, 0⟩]⟩, ⟨[1], []⟩, ⟨[], []⟩⟩)).opaqueQueue =
      (NativeRenderQueue.sort
        ⟨⟨[⟨1, 0, 10, 5, 0, 0⟩, ⟨2, 0, 10, 2, 0, 0⟩, ⟨3, 0, 5, 9, 0, 0⟩]⟩,
          ⟨[⟨1, 0, 1, 3, 0, 0⟩, ⟨2, 0, 1, 7, 0, 0⟩]⟩, ⟨[1], []⟩, ⟨[], []⟩⟩).opaqueQueue ∧
    (NativeRenderQueue.sort (NativeRenderQueue.sort
        ⟨⟨[⟨1, 0, 10, 5, 0, 0⟩, ⟨2, 0, 10, 2, 0, 0⟩, ⟨3, 0, 5, 9, 0, 0⟩]⟩,
          ⟨[⟨1, 0, 1, 3, 0, 0⟩, ⟨2, 0, 1, 7, 0, 0⟩]⟩, ⟨[1], []⟩, ⟨[], []⟩⟩)).transparentQueue =
      (NativeRenderQueue.sort
        ⟨⟨[⟨1, 0, 10, 5, 0, 0⟩, ⟨2, 0, 10, 2, 0, 0⟩, ⟨3, 0, 5, 9, 0, 0⟩]⟩,
          ⟨[⟨1, 0, 1, 3, 0, 0⟩, ⟨2, 0, 1, 7, 0, 0⟩]⟩, ⟨[1], []⟩, ⟨[], []⟩⟩).transparentQueue :=
  ⟨by decide,
    (sort_twice
      ⟨⟨[⟨1, 0, 10, 5, 0, 0⟩, ⟨2, 0, 10, 2, 0, 0⟩, ⟨3, 0, 5, 9, 0, 0⟩]⟩,
        ⟨[⟨1, 0, 1, 3, 0, 0⟩, ⟨2, 0, 1, 7, 0, 0⟩]⟩, ⟨[1], []⟩, ⟨[], []⟩⟩).1.2.2 (by decide),
    (sort_twice
      ⟨⟨[⟨1, 0, 10, 5, 0, 0⟩, ⟨2, 0, 10, 2, 0, 0⟩, ⟨3, 0, 5, 9, 0, 0⟩]⟩,
        ⟨[⟨1, 0, 1, 3, 0, 0⟩, ⟨2, 0, 1, 7, 0, 0⟩]⟩, ⟨[1], []⟩, ⟨[], []⟩⟩).2.1.2.2 (by decide)⟩

/-! ## Recording the draw queue -/

theorem recordDrawInstances_eq (env : Scene) (renderPass : Ptr) (subpassIndex : Nat)
    (l : List DrawInstance) :
    recordDrawInstances env renderPass subpassIndex l =
      (l.map (recordDrawInstance env renderPass subpassIndex)).flatten := by
  induction l with
  | nil => rfl
  | cons d rest ih => simp [recordDrawInstances, ih]

/-- C8: `RenderDrawQueue::recordCommandBuffer` emits, for the instances in sequence order, the
group `bindPipelineState`, `bindDescriptorSet(materialSet, pass descriptor set)`,
`bindDescriptorSet(localSet, sub-model descriptor set)`, `bindInputAssembler`, `draw`, and
nothing else: `5 * n` commands for `n` instances. The input assemblers drawn are those of the
instances, in order, and the instance sequence is as before the call. -/
theorem recordCommandBuffer_projection (q : RenderDrawQueue) (env : Scene) (renderPass : Ptr)
    (subpassIndex : Nat) :
    (q.recordCommandBuffer env renderPass subpassIndex).2 =
      (q.instances.map (fun inst =>
        [Cmd.bindPipelineState
            (env.getOrCreatePipelineState (env.getPass inst.subModel inst.passIndex)
              (env.getShader inst.subModel inst.passIndex)
              (env.getInputAssembler inst.subModel) renderPass subpassIndex),
          Cmd.bindDescriptorSet SetIndex.materialSet
            (env.passDescriptorSet (env.getPass inst.subModel inst.passIndex)) [],
          Cmd.bindDescriptorSet SetIndex.localSet (env.getDescriptorSet inst.subModel) [],
          Cmd.bindInputAssembler (env.getInputAssembler inst.subModel),
          Cmd.draw (env.getInputAssembler inst.subModel)])).flatten ∧
    (q.recordCommandBuffer env renderPass subpassIndex).2.length = 5 * q.instances.length ∧
    drawnInputAssemblers (q.recordCommandBuffer env renderPass subpassIndex).2 =
      q.instances.map (fun inst => env.getInputAssembler inst.subModel) ∧
    (q.recordCommandBuffer env renderPass subpassIndex).1 = q := by
  have hlen : ∀ l : List DrawInstance,
      (recordDrawInstances env renderPass subpassIndex l).length = 5 * l.length := by
    intro l
    induction l with
    | nil => rfl
    | cons d rest ih =>
      simp only [recordDrawInstances, List.length_append, ih, recordDrawInstance,
        List.length_cons, List.length_nil]
      omega
  have hdraw : ∀ l : List DrawInstance,
      drawnInputAssemblers (recordDrawInstances env renderPass subpassIndex l) =
        l.map (fun inst => env.getInputAssembler inst.subModel) := by
    intro l
    induction l with
    | nil => rfl
    | cons d rest ih =>
      unfold drawnInputAssemblers at ih ⊢
      simp only [recordDrawInstances, List.filterMap_append, ih]
      simp [recordDrawInstance]
  refine ⟨?_, hlen _, hdraw _, rfl⟩
  simp only [RenderDrawQueue.recordCommandBuffer, recordDrawInstances_eq]
  rfl

/-! ## Recording the instancing queue -/

section Instancing

variable (env : Scene) (renderPass ds : Ptr) (offset : Nat) (dynamicOffsets : Option (List Nat))

theorem recordInstancedItems_skip (drawPass : Ptr) (bufferOffsets : List Nat) (lastPSO : Ptr)
    (inst : InstancedItem) (rest : List InstancedItem) (h : inst.count = 0) :
    recordInstancedItems env renderPass drawPass ds offset dynamicOffsets bufferOffsets lastPSO
        (inst :: rest) =
      recordInstancedItems env renderPass drawPass ds offset dynamicOffsets bufferOffsets lastPSO
        rest := by
  simp [recordInstancedItems, h]

theorem bound_recordInstancedItems_cons (drawPass : Ptr) (bufferOffsets : List Nat)
    (lastPSO : Ptr) (inst : InstancedItem) (rest : List InstancedItem) (h : inst.count ≠ 0) :
    boundPipelineStates (recordInstancedItems env renderPass drawPass ds offset dynamicOffsets
        bufferOffsets lastPSO (inst :: rest)) =
      (if lastPSO ≠ env.getOrCreatePipelineState drawPass inst.shader inst.ia renderPass 0
        then [env.getOrCreatePipelineState drawPass inst.shader inst.ia renderPass 0] else []) ++
      boundPipelineStates (recordInstancedItems env renderPass drawPass ds offset dynamicOffsets
        bufferOffsets (env.getOrCreatePipelineState drawPass inst.shader inst.ia renderPass 0)
        rest) := by
  have hlast : (if lastPSO ≠ env.getOrCreatePipelineState drawPass inst.shader inst.ia renderPass 0
      then env.getOrCreatePipelineState drawPass inst.shader inst.ia renderPass 0 else lastPSO)
      = env.getOrCreatePipelineState drawPass inst.shader inst.ia renderPass 0 := by
    split_ifs with h1
    · rfl
    · exact not_not.1 h1
  simp only [recordInstancedItems, h, if_false, hlast]
  unfold boundPipelineStates
  simp only [List.filterMap_append]
  cases dynamicOffsets <;> split_ifs <;> simp

theorem drawn_recordInstancedItems (drawPass : Ptr) (bufferOffsets : List Nat)
    (l : List InstancedItem) :
    ∀ lastPSO : Ptr,
      drawnInputAssemblers (recordInstancedItems env renderPass drawPass ds offset dynamicOffsets
          bufferOffsets lastPSO l) =
        (l.filter (fun inst => inst.count ≠ 0)).map (fun inst => inst.ia) := by
  induction l with
  | nil => intro lastPSO; rfl
  | cons inst rest ih =>
    intro lastPSO
    by_cases h : inst.count = 0
    · rw [recordInstancedItems_skip env renderPass ds offset dynamicOffsets drawPass
        bufferOffsets lastPSO inst rest h, ih lastPSO]
      simp [h]
    · simp only [recordInstancedItems, h, if_false]
      unfold drawnInputAssemblers at ih ⊢
      simp only [List.filterMap_append, ih]
      cases dynamicOffsets <;> split_ifs <;> simp [h]

theorem material_recordInstancedItems (drawPass : Ptr) (bufferOffsets : List Nat)
    (l : List InstancedItem) :
    ∀ lastPSO : Ptr,
      materialBinds (recordInstancedItems env renderPass drawPass ds offset dynamicOffsets
          bufferOffsets lastPSO l) = [] := by
  induction l with
  | nil => intro lastPSO; rfl
  | cons inst rest ih =>
    intro lastPSO
    by_cases h : inst.count = 0
    · rw [recordInstancedItems_skip env renderPass ds offset dynamicOffsets drawPass
        bufferOffsets lastPSO inst rest h, ih lastPSO]
    · simp only [recordInstancedItems, h, if_false]
      unfold materialBinds at ih ⊢
      simp only [List.filterMap_append, ih]
      cases dynamicOffsets <;> split_ifs <;> simp

/-- The states bound while the instances of one batch are recorded: each differs from the one
bound before it, the first from the `lastPSO` the loop started with. -/
theorem bound_recordInstancedItems_chain (drawPass : Ptr) (bufferOffsets : List Nat)
    (l : List InstancedItem) :
    ∀ lastPSO : Ptr,
      List.Chain (fun a b => a ≠ b) lastPSO
        (boundPipelineStates (recordInstancedItems env renderPass drawPass ds offset
          dynamicOffsets bufferOffsets lastPSO l)) := by
  induction l with
  | nil => intro lastPSO; exact List.Chain.nil
  | cons inst rest ih =>
    intro lastPSO
    by_cases h : inst.count = 0
    · rw [recordInstancedItems_skip env renderPass ds offset dynamicOffsets drawPass
        bufferOffsets lastPSO inst rest h]
      exact ih lastPSO
    · rw [bound_recordInstancedItems_cons env renderPass ds offset dynamicOffsets drawPass
        bufferOffsets lastPSO inst rest h]
      split_ifs with h1
      · exact List.Chain.cons h1 (ih _)
      · have h2 := not_not.1 h1
        simpa [← h2] using ih lastPSO

theorem recordBatches_cons (p : Ptr) (rest : List Ptr) :
    recordBatches env renderPass ds offset dynamicOffsets (p :: rest) =
      batchSegment env renderPass ds offset dynamicOffsets p ++
        recordBatches env renderPass ds offset dynamicOffsets rest := by
  unfold batchSegment
  by_cases h : (env.instancedBuffer p).hasPendingModels = true
  · simp [recordBatches, h]
  · simp [recordBatches, h]

theorem recordBatches_eq_segments (l : List Ptr) :
    recordBatches env renderPass ds offset dynamicOffsets l =
      (l.map (batchSegment env renderPass ds offset dynamicOffsets)).flatten := by
  induction l with
  | nil => rfl
  | cons p rest ih =>
    rw [recordBatches_cons, ih]
    simp

theorem batchSegment_pending (p : Ptr) (h : (env.instancedBuffer p).hasPendingModels = true) :
    batchSegment env renderPass ds offset dynamicOffsets p =
      Cmd.bindDescriptorSet SetIndex.materialSet
          (env.passDescriptorSet (env.instancedBuffer p).pass) [] ::
        recordInstancedItems env renderPass (env.instancedBuffer p).pass ds offset dynamicOffsets
          (env.instancedBuffer p).dynamicOffsets nullptr (env.instancedBuffer p).instances := by
  simp [batchSegment, recordBatches, h]

theorem batchSegment_not_pending (p : Ptr)
    (h : (env.instancedBuffer p).hasPendingModels = false) :
    batchSegment env renderPass ds offset dynamicOffsets p = [] := by
  simp [batchSegment, recordBatches, h]

theorem recordInstancedItems_filter (drawPass : Ptr) (bufferOffsets : List Nat)
    (l : List InstancedItem) :
    ∀ lastPSO : Ptr,
      recordInstancedItems env renderPass drawPass ds offset dynamicOffsets bufferOffsets lastPSO
          l =
        recordInstancedItems env renderPass drawPass ds offset dynamicOffsets bufferOffsets
          lastPSO (l.filter (fun inst => inst.count ≠ 0)) := by
  induction l with
  | nil => intro lastPSO; rfl
  | cons inst rest ih =>
    intro lastPSO
    by_cases h : inst.count = 0
    · rw [recordInstancedItems_skip env renderPass ds offset dynamicOffsets drawPass
        bufferOffsets lastPSO inst rest h, ih lastPSO]
      simp [h]
    · have hf : (inst :: rest).filter (fun inst => inst.count ≠ 0) =
          inst :: rest.filter (fun inst => inst.count ≠ 0) := by simp [h]
      rw [hf]
      simp only [recordInstancedItems, h, if_false]
      rw [← ih]

theorem drawn_batchSegment (p : Ptr) :
    drawnInputAssemblers (batchSegment env renderPass ds offset dynamicOffsets p) =
      if (env.instancedBuffer p).hasPendingModels = true then
        ((env.instancedBuffer p).instances.filter (fun inst => inst.count ≠ 0)).map
          (fun inst => inst.ia)
      else [] := by
  split_ifs with h
  · rw [batchSegment_pending env renderPass ds offset dynamicOffsets p h]
    rw [← drawn_recordInstancedItems env renderPass ds offset dynamicOffsets
      (env.instancedBuffer p).pass (env.instancedBuffer p).dynamicOffsets
      (env.instancedBuffer p).instances nullptr]
    simp [drawnInputAssemblers]
  · rw [batchSegment_not_pending env renderPass ds offset dynamicOffsets p (by simpa using h)]
    rfl

/-- C5, as stated, fails: in `sampleScene` the finalized sequence `[1, 2]` holds two batches
with pending models whose single instances share pass, shader and input assembler. The stream
binds pipeline state 1534 for the first batch and binds 1534 again for the second, with no
other `bindPipelineState` in between. -/
theorem bind_adjacent_counterexample :
    RenderInstancingQueue.recordCommandBuffer ⟨[1, 2], [1, 2]⟩ sampleScene 0 0 0 none =
      [Cmd.bindDescriptorSet SetIndex.materialSet 505 [],
       Cmd.bindPipelineState 1534,
       Cmd.bindDescriptorSet SetIndex.localSet 6 [],
       Cmd.bindInputAssembler 4,
       Cmd.draw 4,
       Cmd.bindDescriptorSet SetIndex.materialSet 505 [],
       Cmd.bindPipelineState 1534,
       Cmd.bindDescriptorSet SetIndex.localSet 6 [],
       Cmd.bindInputAssembler 4,
       Cmd.draw 4] ∧
    boundPipelineStates
        (RenderInstancingQueue.recordCommandBuffer ⟨[1, 2], [1, 2]⟩ sampleScene 0 0 0 none) =
      [1534, 1534] ∧
    ¬ List.Chain' (fun a b => a ≠ b)
        (boundPipelineStates
          (RenderInstancingQueue.recordCommandBuffer ⟨[1, 2], [1, 2]⟩ sampleScene 0 0 0 none)) := by
  have h : boundPipelineStates
      (RenderInstancingQueue.recordCommandBuffer ⟨[1, 2], [1, 2]⟩ sampleScene 0 0 0 none) =
      [1534, 1534] := by decide
  refine ⟨by decide, h, ?_⟩
  rw [h]
  simp

/-- C5, amended: the stream of `RenderInstancingQueue::recordCommandBuffer` is made of one
segment per entry of `sortedBatches`, and within the segment of one entry no two successive
`bindPipelineState` commands bind the same pipeline state: a state is bound for a nonzero-count
instance only if it differs from the state bound last in the same segment. -/
theorem bind_only_on_change (q : RenderInstancingQueue) :
    boundPipelineStates (q.recordCommandBuffer env renderPass ds offset dynamicOffsets) =
      (q.sortedBatches.map (fun p =>
        boundPipelineStates (batchSegment env renderPass ds offset dynamicOffsets p))).flatten ∧
    ∀ p : Ptr, List.Chain' (fun a b => a ≠ b)
      (boundPipelineStates (batchSegment env renderPass ds offset dynamicOffsets p)) := by
  constructor
  · unfold RenderInstancingQueue.recordCommandBuffer
    generalize q.sortedBatches = l
    induction l with
    | nil => rfl
    | cons p rest ih =>
      rw [recordBatches_cons]
      unfold boundPipelineStates at ih ⊢
      simp only [List.filterMap_append, ih, List.map_cons, List.flatten_cons]
  · intro p
    by_cases h : (env.instancedBuffer p).hasPendingModels = true
    · rw [batchSegment_pending env renderPass ds offset dynamicOffsets p h]
      have hc := bound_recordInstancedItems_chain env renderPass ds offset dynamicOffsets
        (env.instancedBuffer p).pass (env.instancedBuffer p).dynamicOffsets
        (env.instancedBuffer p).instances nullptr
      have hb : boundPipelineStates
          (Cmd.bindDescriptorSet SetIndex.materialSet
              (env.passDescriptorSet (env.instancedBuffer p).pass) [] ::
            recordInstancedItems env renderPass (env.instancedBuffer p).pass ds offset
              dynamicOffsets (env.instancedBuffer p).dynamicOffsets nullptr
              (env.instancedBuffer p).instances) =
          boundPipelineStates
            (recordInstancedItems env renderPass (env.instancedBuffer p).pass ds offset
              dynamicOffsets (env.instancedBuffer p).dynamicOffsets nullptr
              (env.instancedBuffer p).instances) := by
        simp [boundPipelineStates]
      rw [hb]
      exact (List.chain'_cons'.1 hc).2
    · rw [batchSegment_not_pending env renderPass ds offset dynamicOffsets p (by simpa using h)]
      exact List.chain'_nil

/-- C6: in `RenderInstancingQueue::recordCommandBuffer` an instance record with count 0
contributes no command: the loop over the instances emits what it emits for the records with a
nonzero count alone. The number of `draw` commands of the stream is the number of records with
a nonzero count, summed over the entries of `sortedBatches` with pending models. The segment of
a batch whose records all have count 0 holds no `bindPipelineState` and no `draw`. -/
theorem zero_count_skipped :
    (∀ (drawPass : Ptr) (bufferOffsets : List Nat) (lastPSO : Ptr) (l : List InstancedItem),
      recordInstancedItems env renderPass drawPass ds offset dynamicOffsets bufferOffsets lastPSO
          l =
        recordInstancedItems env renderPass drawPass ds offset dynamicOffsets bufferOffsets
          lastPSO (l.filter (fun inst => inst.count ≠ 0))) ∧
    (∀ q : RenderInstancingQueue,
      (drawnInputAssemblers
          (q.recordCommandBuffer env renderPass ds offset dynamicOffsets)).length =
        ((q.sortedBatches.filter (fun p => (env.instancedBuffer p).hasPendingModels)).map
          (fun p => nonzeroCount (env.instancedBuffer p))).sum) ∧
    (∀ p : Ptr, (∀ inst ∈ (env.instancedBuffer p).instances, inst.count = 0) →
      boundPipelineStates (batchSegment env renderPass ds offset dynamicOffsets p) = [] ∧
      drawnInputAssemblers (batchSegment env renderPass ds offset dynamicOffsets p) = []) := by
  refine ⟨fun drawPass bufferOffsets lastPSO l =>
    recordInstancedItems_filter env renderPass ds offset dynamicOffsets drawPass bufferOffsets l
      lastPSO, fun q => ?_, fun p hp => ?_⟩
  · unfold RenderInstancingQueue.recordCommandBuffer
    generalize q.sortedBatches = l
    induction l with
    | nil => rfl
    | cons p rest ih =>
      rw [recordBatches_cons]
      unfold drawnInputAssemblers at ih ⊢
      rw [List.filterMap_append, List.length_append, ih]
      have hd := drawn_batchSegment env renderPass ds offset dynamicOffsets p
      unfold drawnInputAssemblers at hd
      rw [hd]
      by_cases h : (env.instancedBuffer p).hasPendingModels = true
      · simp [h, nonzeroCount]
      · simp [h]
  · have hnil : (env.instancedBuffer p).instances.filter (fun inst => inst.count ≠ 0) = [] := by
      rw [List.filter_eq_nil_iff]
      intro inst hi
      simp [hp inst hi]
    by_cases h : (env.instancedBuffer p).hasPendingModels = true
    · rw [batchSegment_pending env renderPass ds offset dynamicOffsets p h,
        recordInstancedItems_filter, hnil]
      simp [recordInstancedItems, boundPipelineStates, drawnInputAssemblers]
    · rw [batchSegment_not_pending env renderPass ds offset dynamicOffsets p (by simpa using h)]
      exact ⟨rfl, rfl⟩

/-- C7: the stream of `RenderInstancingQueue::recordCommandBuffer` is the concatenation, in
`sortedBatches` order, of the segments of the entries. The segment of an entry without pending
models is empty. The segment of an entry with pending models starts with the bind of the
descriptor set of its pass to `materialSet` and binds nothing else to that slot. When the batch
has pending models exactly if one of its instances has a nonzero count, that bind is followed in
the segment by the draws of the nonzero-count instances of the batch, at least one. -/
theorem recordCommandBuffer_segments :
    (∀ q : RenderInstancingQueue,
      q.recordCommandBuffer env renderPass ds offset dynamicOffsets =
        (q.sortedBatches.map (batchSegment env renderPass ds offset dynamicOffsets)).flatten) ∧
    (∀ p : Ptr, (env.instancedBuffer p).hasPendingModels = false →
      batchSegment env renderPass ds offset dynamicOffsets p = []) ∧
    (∀ p : Ptr, (env.instancedBuffer p).hasPendingModels = true →
      ∃ tail : List Cmd,
        batchSegment env renderPass ds offset dynamicOffsets p =
          Cmd.bindDescriptorSet SetIndex.materialSet
            (env.passDescriptorSet (env.instancedBuffer p).pass) [] :: tail ∧
        materialBinds tail = []) ∧
    (∀ p : Ptr,
      ((env.instancedBuffer p).hasPendingModels = true ↔
        ∃ inst ∈ (env.instancedBuffer p).instances, inst.count ≠ 0) →
      (env.instancedBuffer p).hasPendingModels = true →
      ∃ tail : List Cmd,
        batchSegment env renderPass ds offset dynamicOffsets p =
          Cmd.bindDescriptorSet SetIndex.materialSet
            (env.passDescriptorSet (env.instancedBuffer p).pass) [] :: tail ∧
        drawnInputAssemblers tail =
          ((env.instancedBuffer p).instances.filter (fun inst => inst.count ≠ 0)).map
            (fun inst => inst.ia) ∧
        drawnInputAssemblers tail ≠ []) := by
  refine ⟨fun q => recordBatches_eq_segments env renderPass ds offset dynamicOffsets _,
    fun p h => batchSegment_not_pending env renderPass ds offset dynamicOffsets p h,
    fun p h => ⟨_, batchSegment_pending env renderPass ds offset dynamicOffsets p h,
      material_recordInstancedItems env renderPass ds offset dynamicOffsets _ _ _ _⟩,
    fun p hmodel h => ⟨_, batchSegment_pending env renderPass ds offset dynamicOffsets p h,
      drawn_recordInstancedItems env renderPass ds offset dynamicOffsets _ _ _ _, ?_⟩⟩
  rw [drawn_recordInstancedItems]
  obtain ⟨inst, hi, hc⟩ := hmodel.1 h
  intro hnil
  have hmem : inst ∈ (env.instancedBuffer p).instances.filter (fun inst => inst.count ≠ 0) := by
    simp [List.mem_filter, hi, hc]
  have := List.map_eq_nil_iff.1 hnil
  rw [this] at hmem
  exact absurd hmem (List.not_mem_nil _)

end Instancing

/-- C6 at a concrete batch: batch 3 of `sampleScene` has pending models and two records of
count 0; its segment holds no `bindPipelineState` and no `draw`. -/
theorem zero_count_skipped_witness :
    (∀ inst ∈ (sampleScene.instancedBuffer 3).instances, inst.count = 0) ∧
    boundPipelineStates (batchSegment sampleScene 0 0 0 none 3) = [] ∧
    drawnInputAssemblers (batchSegment sampleScene 0 0 0 none 3) = [] :=
  ⟨by decide, (zero_count_skipped sampleScene 0 0 0 none).2.2 3 (by decide)⟩

/-- C7 at a concrete batch: batch 1 of `sampleScene` has pending models and an instance of
count 1; its material-set bind is followed by the draw of input assembler 4. -/
theorem recordCommandBuffer_segments_witness :
    ((sampleScene.instancedBuffer 1).hasPendingModels = true ↔
      ∃ inst ∈ (sampleScene.instancedBuffer 1).instances, inst.count ≠ 0) ∧
    (sampleScene.instancedBuffer 1).hasPendingModels = true ∧
    ∃ tail : List Cmd,
      batchSegment sampleScene 0 0 0 none 1 =
        Cmd.bindDescriptorSet SetIndex.materialSet
          (sampleScene.passDescriptorSet (sampleScene.instancedBuffer 1).pass) [] :: tail ∧
      drawnInputAssemblers tail =
        ((sampleScene.instancedBuffer 1).instances.filter (fun inst => inst.count ≠ 0)).map
          (fun inst => inst.ia) ∧
      drawnInputAssemblers tail ≠ [] :=
  ⟨by decide, by decide,
    (recordCommandBuffer_segments sampleScene 0 0 0 none).2.2.2 1 (by decide) (by decide)⟩

end cc.render

/-! ## The draws of `DebugRenderer::render` -/

namespace cc

open cc.render

theorem u32_sub_of_le (maxVertices offset : Nat) (hmax : maxVertices < 2 ^ 32)
    (ho : offset ≤ maxVertices) : u32 (maxVertices + 2 ^ 32 - offset) = maxVertices - offset := by
  unfold u32
  norm_num at hmax ⊢
  omega

theorem u32_of_lt (n : Nat) (h : n < 2 ^ 32) : u32 n = n := by
  unfold u32
  exact Nat.mod_eq_of_lt h

theorem drawInfos_renderLoop_cons (maxVertices offset : Nat) (batch : DebugBatch)
    (rest : List DebugBatch) :
    drawInfos (renderLoop maxVertices offset (batch :: rest)) =
      if min (u32 batch.vertices.length) (u32 (maxVertices + 2 ^ 32 - offset)) = 0 then []
      else
        ⟨offset, min (u32 batch.vertices.length) (u32 (maxVertices + 2 ^ 32 - offset))⟩ ::
          drawInfos (renderLoop maxVertices
            (u32 (offset + min (u32 batch.vertices.length) (u32 (maxVertices + 2 ^ 32 - offset))))
            rest) := by
  simp only [renderLoop]
  split_ifs with h
  · rfl
  · simp [drawInfos]

/-- The draws of the loop entered with an offset within the capacity are contiguous from that
offset and stay within the capacity. -/
theorem renderLoop_contiguous (maxVertices : Nat) (hmax : maxVertices < 2 ^ 32)
    (batches : List DebugBatch) :
    ∀ offset : Nat, offset ≤ maxVertices →
      contiguousFrom maxVertices offset (drawInfos (renderLoop maxVertices offset batches)) := by
  induction batches with
  | nil => intro offset _; trivial
  | cons batch rest ih =>
    intro offset ho
    rw [drawInfos_renderLoop_cons, u32_sub_of_le maxVertices offset hmax ho]
    split_ifs with h
    · trivial
    · have hc : min (u32 batch.vertices.length) (maxVertices - offset) ≤ maxVertices - offset :=
        Nat.min_le_right _ _
      have hsum : offset + min (u32 batch.vertices.length) (maxVertices - offset) ≤ maxVertices := by
        omega
      rw [u32_of_lt _ (lt_of_le_of_lt hsum hmax)]
      exact ⟨rfl, Nat.pos_of_ne_zero h, hsum, ih _ hsum⟩

theorem contiguousFrom_mem (maxVertices : Nat) (l : List DrawInfo) :
    ∀ offset : Nat, contiguousFrom maxVertices offset l →
      ∀ d ∈ l, 0 < d.vertexCount ∧ d.firstVertex + d.vertexCount ≤ maxVertices := by
  induction l with
  | nil => intro _ _ d hd; exact absurd hd (List.not_mem_nil d)
  | cons e rest ih =>
    intro offset h d hd
    obtain ⟨_, h2, h3, h4⟩ := h
    rcases List.mem_cons.1 hd with rfl | hd
    · exact ⟨h2, h3⟩
    · exact ih _ h4 d hd

theorem contiguousFrom_adjacent (maxVertices : Nat) (front : List DrawInfo) :
    ∀ (offset : Nat) (d₁ d₂ : DrawInfo) (back : List DrawInfo),
      contiguousFrom maxVertices offset (front ++ d₁ :: d₂ :: back) →
      d₂.firstVertex = d₁.firstVertex + d₁.vertexCount := by
  induction front with
  | nil =>
    intro offset d₁ d₂ back h
    obtain ⟨_, _, _, h4⟩ := h
    exact h4.1
  | cons e rest ih =>
    intro offset d₁ d₂ back h
    obtain ⟨_, _, _, h4⟩ := h
    exact ih _ d₁ d₂ back h4

/-- The draws of the loop entered with offset 0: each covers at least one vertex and ends
within the capacity, they are contiguous from vertex 0, and neither the subtraction nor the
addition of the loop wraps around. -/
theorem renderLoop_draws_within_capacity (maxVertices : Nat) (hmax : maxVertices < 2 ^ 32)
    (batches : List DebugBatch) :
    (∀ d ∈ drawInfos (renderLoop maxVertices 0 batches),
      0 < d.vertexCount ∧ d.firstVertex + d.vertexCount ≤ maxVertices) ∧
    (∀ d, (drawInfos (renderLoop maxVertices 0 batches)).head? = some d → d.firstVertex = 0) ∧
    (∀ (front : List DrawInfo) (d₁ d₂ : DrawInfo) (back : List DrawInfo),
      drawInfos (renderLoop maxVertices 0 batches) = front ++ d₁ :: d₂ :: back →
      d₂.firstVertex = d₁.firstVertex + d₁.vertexCount) ∧
    u32 (maxVertices + 2 ^ 32 - 0) = maxVertices ∧
    (∀ d ∈ drawInfos (renderLoop maxVertices 0 batches),
      u32 (d.firstVertex + d.vertexCount) = d.firstVertex + d.vertexCount ∧
      u32 (maxVertices + 2 ^ 32 - (d.firstVertex + d.vertexCount)) + (d.firstVertex + d.vertexCount)
        = maxVertices) := by
  have hc := renderLoop_contiguous maxVertices hmax batches 0 (Nat.zero_le _)
  have hm := contiguousFrom_mem maxVertices _ 0 hc
  refine ⟨hm, ?_, ?_, ?_, ?_⟩
  · intro d hd
    cases hl : drawInfos (renderLoop maxVertices 0 batches) with
    | nil => rw [hl] at hd; simp at hd
    | cons e rest =>
      rw [hl] at hd hc
      simp only [List.head?_cons, Option.some.injEq] at hd
      rw [← hd]
      exact hc.1
  · intro front d₁ d₂ back hl
    rw [hl] at hc
    exact contiguousFrom_adjacent maxVertices front 0 d₁ d₂ back hc
  · simpa using u32_sub_of_le maxVertices 0 hmax (Nat.zero_le _)
  · intro d hd
    obtain ⟨_, h2⟩ := hm d hd
    rw [u32_of_lt _ (lt_of_le_of_lt h2 hmax), u32_sub_of_le maxVertices _ hmax h2]
    omega

theorem batchesEmpty_renderLoop (maxVertices : Nat) (batches : List DebugBatch)
    (h : batchesEmpty batches = true) : renderLoop maxVertices 0 batches = [] := by
  cases batches with
  | nil => rfl
  | cons batch rest =>
    have hv : batch.vertices = [] := by
      unfold batchesEmpty at h
      by_cases he : batch.vertices.isEmpty = true
      · exact List.isEmpty_iff.1 he
      · simp [he] at h
    simp [renderLoop, hv, u32]

/-- The draws `DebugRenderer::render` records are those of its loop entered with offset 0. -/
theorem drawInfos_render (r : DebugRenderer) (buffer : DebugVertexBuffer)
    (hb : r.buffer = some buffer) (env : Scene) (renderPass sizeofDebugVertex : Nat) :
    drawInfos (r.render env renderPass sizeofDebugVertex).2.2 =
      drawInfos (renderLoop buffer.maxVertices 0 buffer.batches) := by
  unfold DebugRenderer.render
  rw [hb]
  by_cases he : buffer.empty = true
  · simp only [he, if_true]
    rw [batchesEmpty_renderLoop buffer.maxVertices buffer.batches he]
  · simp [he, drawInfos]

/-- C16: for every list of debug batches and every `uint32_t` capacity `maxVertices`, every
draw issued by `DebugRenderer::render` covers at least one vertex and ends at or before
`maxVertices`; the first draw starts at vertex 0 and each later draw starts where the draw
before it ended. The offsets at which the loop evaluates `maxVertices - offset` are 0 and the
ends of the draws: none exceeds `maxVertices`, so the `uint32_t` subtraction returns the true
difference and the `uint32_t` addition `offset += count` the true sum. -/
theorem render_draws_within_capacity (r : DebugRenderer) (buffer : DebugVertexBuffer)
    (hb : r.buffer = some buffer) (hmax : buffer.maxVertices < 2 ^ 32) (env : Scene)
    (renderPass sizeofDebugVertex : Nat) :
    (∀ d ∈ drawInfos (r.render env renderPass sizeofDebugVertex).2.2,
      0 < d.vertexCount ∧ d.firstVertex + d.vertexCount ≤ buffer.maxVertices) ∧
    (∀ d, (drawInfos (r.render env renderPass sizeofDebugVertex).2.2).head? = some d →
      d.firstVertex = 0) ∧
    (∀ (front : List DrawInfo) (d₁ d₂ : DrawInfo) (back : List DrawInfo),
      drawInfos (r.render env renderPass sizeofDebugVertex).2.2 = front ++ d₁ :: d₂ :: back →
      d₂.firstVertex = d₁.firstVertex + d₁.vertexCount) ∧
    u32 (buffer.maxVertices + 2 ^ 32 - 0) = buffer.maxVertices ∧
    (∀ d ∈ drawInfos (r.render env renderPass sizeofDebugVertex).2.2,
      u32 (d.firstVertex + d.vertexCount) = d.firstVertex + d.vertexCount ∧
      u32 (buffer.maxVertices + 2 ^ 32 - (d.firstVertex + d.vertexCount)) +
          (d.firstVertex + d.vertexCount) = buffer.maxVertices) := by
  rw [drawInfos_render r buffer hb env renderPass sizeofDebugVertex]
  exact renderLoop_draws_within_capacity buffer.maxVertices hmax buffer.batches

/-- C16 at a concrete buffer: capacity 8 and batches of 6 and 5 vertices give the draws
`(0, 6)` and `(6, 2)`. -/
theorem render_draws_within_capacity_witness :
    (8 < 2 ^ 32) ∧
    drawInfos (DebugRenderer.render
        ⟨some ⟨8, [⟨[0, 1, 2, 3, 4, 5], 1⟩, ⟨[6, 7, 8, 9, 10], 2⟩], 3⟩, 4, 5⟩
        sampleScene 0 32).2.2 = [⟨0, 6⟩, ⟨6, 2⟩] ∧
    (∀ d ∈ drawInfos (DebugRenderer.render
        ⟨some ⟨8, [⟨[0, 1, 2, 3, 4, 5], 1⟩, ⟨[6, 7, 8, 9, 10], 2⟩], 3⟩, 4, 5⟩
        sampleScene 0 32).2.2,
      0 < d.vertexCount ∧ d.firstVertex + d.vertexCount ≤ 8) :=
  ⟨by decide, by decide,
    (render_draws_within_capacity
      ⟨some ⟨8, [⟨[0, 1, 2, 3, 4, 5], 1⟩, ⟨[6, 7, 8, 9, 10], 2⟩], 3⟩, 4, 5⟩
      ⟨8, [⟨[0, 1, 2, 3, 4, 5], 1⟩, ⟨[6, 7, 8, 9, 10], 2⟩], 3⟩ rfl (by decide)
      sampleScene 0 32).1⟩

/-- The loop stops at the first batch without vertices: entered within the capacity, its draws
cover the vertices of the batches in front of that batch, cut at the capacity left. -/
theorem renderLoop_drawn_count (maxVertices : Nat) (hmax : maxVertices < 2 ^ 32)
    (batches : List DebugBatch) :
    totalVertices batches < 2 ^ 32 →
    ∀ offset : Nat, offset ≤ maxVertices →
      drawnVertexCount (renderLoop maxVertices offset batches) =
        min (totalVertices (batches.takeWhile (fun batch => !batch.vertices.isEmpty)))
          (maxVertices - offset) := by
  induction batches with
  | nil => intro _ offset _; simp [renderLoop, drawnVertexCount, drawInfos, totalVertices]
  | cons batch rest ih =>
    intro hsize offset ho
    have hsplit : totalVertices (batch :: rest) = batch.vertices.length + totalVertices rest := by
      simp [totalVertices]
    rw [hsplit] at hsize
    have hlen : u32 batch.vertices.length = batch.vertices.length :=
      u32_of_lt _ (by omega)
    unfold drawnVertexCount at ih ⊢
    rw [drawInfos_renderLoop_cons, u32_sub_of_le maxVertices offset hmax ho, hlen]
    by_cases hv : batch.vertices = []
    · simp [hv, totalVertices]
    · have hpos : 0 < batch.vertices.length := List.length_pos.2 hv
      have htw : (batch :: rest).takeWhile (fun batch => !batch.vertices.isEmpty) =
          batch :: rest.takeWhile (fun batch => !batch.vertices.isEmpty) := by
        simp [List.takeWhile_cons, List.isEmpty_iff, hv]
      rw [htw]
      have hsplit2 : totalVertices (batch :: rest.takeWhile
          (fun batch => !batch.vertices.isEmpty)) =
          batch.vertices.length +
            totalVertices (rest.takeWhile (fun batch => !batch.vertices.isEmpty)) := by
        simp [totalVertices]
      rw [hsplit2]
      split_ifs with h
      · simp only [List.map_nil, List.sum_nil]
        omega
      · have hsum : offset + min batch.vertices.length (maxVertices - offset) ≤ maxVertices := by
          omega
        rw [u32_of_lt _ (lt_of_le_of_lt hsum hmax)]
        simp only [List.map_cons, List.sum_cons]
        rw [ih (by omega) _ hsum]
        omega

/-- What `DebugRenderer::render` draws when no batch is without vertices: as many vertices as
`DebugVertexBuffer::update` uploads, the smaller of the total and the capacity. -/
theorem render_drawn_count_of_no_empty_batch (r : DebugRenderer) (buffer : DebugVertexBuffer)
    (hb : r.buffer = some buffer) (hmax : buffer.maxVertices < 2 ^ 32)
    (hsize : totalVertices buffer.batches < 2 ^ 32)
    (hne : ∀ batch ∈ buffer.batches, batch.vertices ≠ [])
    (env : Scene) (renderPass sizeofDebugVertex : Nat) :
    drawnVertexCount (r.render env renderPass sizeofDebugVertex).2.2 =
      min (totalVertices buffer.batches) buffer.maxVertices := by
  unfold drawnVertexCount
  rw [drawInfos_render r buffer hb env renderPass sizeofDebugVertex]
  have h := renderLoop_drawn_count buffer.maxVertices hmax buffer.batches hsize 0 (Nat.zero_le _)
  unfold drawnVertexCount at h
  rw [h]
  have ht : buffer.batches.takeWhile (fun batch => !batch.vertices.isEmpty) = buffer.batches := by
    rw [List.takeWhile_eq_self_iff]
    intro batch hmem
    simp [List.isEmpty_iff, hne batch hmem]
  rw [ht]
  simp

/-- C12 at a buffer of capacity 60000 whose first batch has no vertices and whose second has
six: `DebugVertexBuffer::update` uploads 6 vertices, the smaller of the total and the capacity,
and `DebugRenderer::render` leaves its loop at the first batch and issues no draw. -/
theorem render_stops_at_empty_batch :
    (DebugRenderer.render ⟨some ⟨60000, [⟨[], 1⟩, ⟨[0, 1, 2, 3, 4, 5], 2⟩], 3⟩, 4, 5⟩
        sampleScene 0 32).2.1 = some ⟨6, 192⟩ ∧
    min (totalVertices [⟨[], 1⟩, ⟨[0, 1, 2, 3, 4, 5], 2⟩]) 60000 = 6 ∧
    (DebugRenderer.render ⟨some ⟨60000, [⟨[], 1⟩, ⟨[0, 1, 2, 3, 4, 5], 2⟩], 3⟩, 4, 5⟩
        sampleScene 0 32).2.2 =
      [DebugCmd.bindPipelineState 1453, DebugCmd.bindInputAssembler 3] ∧
    drawnVertexCount
      (DebugRenderer.render ⟨some ⟨60000, [⟨[], 1⟩, ⟨[0, 1, 2, 3, 4, 5], 2⟩], 3⟩, 4, 5⟩
        sampleScene 0 32).2.2 = 0 := by
  decide

end cc

/-! ## The record built by `RenderDrawQueue::add` and its sort key -/

namespace cc.render

/-- C11: `RenderDrawQueue::add` leaves the instances it finds in place and puts one new record
behind them. The record carries the sub-model, the priority of the model, the given depth and
pass index, the shader identity reduced to 32 bits, and the sort key
`(category << 30) | (passPriority << 16) | (drawablePriority << 8) | passIndex` computed on
`uint32_t`, with the category bits the constant 0, which contribute nothing. Adding sub-model
0 of model 1 of `sampleModels` at depth 5 and pass 0 to a queue of one instance puts the record
with sort key `(128 << 16) | (128 << 8) | 0 = 8421376` behind that instance. -/
theorem add_appends_one (q : RenderDrawQueue) (env : Scene) (models : ModelData) (model : Ptr)
    (depth : ℚ) (subModelIdx passIdx : Nat) :
    (q.add env models model depth subModelIdx passIdx).instances =
      q.instances ++
        [{ subModel := models.getSubModels model subModelIdx
           priority := models.getPriority model
           hash :=
             u32 (0 <<< 30) |||
               u32 (u32 (models.passPriority
                 (env.getPass (models.getSubModels model subModelIdx) passIdx)) <<< 16) |||
               u32 (u32 (models.subModelPriority (models.getSubModels model subModelIdx)) <<< 8) |||
               passIdx
           depth := depth
           shaderID := u32 (env.getShader (models.getSubModels model subModelIdx) passIdx)
           passIndex := passIdx }] ∧
    (q.add env models model depth subModelIdx passIdx).instances.length =
      q.instances.length + 1 ∧
    (q.add env models model depth subModelIdx passIdx).instances.take q.instances.length =
      q.instances ∧
    (∀ passPriority modelPriority : Nat,
      sortKeyHash passPriority modelPriority passIdx =
        u32 (passPriority <<< 16) ||| u32 (modelPriority <<< 8) ||| passIdx) ∧
    (RenderDrawQueue.add ⟨[⟨3, 0, 5, 9, 0, 0⟩]⟩ sampleScene sampleModels 1 5 0 0).instances =
      [⟨3, 0, 5, 9, 0, 0⟩, ⟨11, 9, 8421376, 5, 410, 0⟩] := by
  refine ⟨rfl, ?_, ?_, ?_, by decide⟩
  · simp [RenderDrawQueue.add]
  · simp [RenderDrawQueue.add]
  · intro passPriority modelPriority
    have h0 : u32 (0 <<< 30) = 0 := by decide
    unfold sortKeyHash
    rw [h0, Nat.zero_or]

/-- With the three operands below 256 the bit fields of the sort key do not overlap: the key is
`passPriority * 2 ^ 16 + modelPriority * 2 ^ 8 + passIdx`. -/
theorem sortKeyHash_eq_sum (a0 a1 a2 : Nat) (h0 : a0 < 256) (h1 : a1 < 256) (h2 : a2 < 256) :
    sortKeyHash a0 a1 a2 = a0 * 65536 + a1 * 256 + a2 := by
  have hz : u32 (0 <<< 30) = 0 := by decide
  have e0 : u32 (a0 <<< 16) = 2 ^ 16 * a0 := by
    rw [Nat.shiftLeft_eq, u32_of_lt]
    · ring
    · norm_num
      omega
  have e1 : u32 (a1 <<< 8) = 2 ^ 8 * a1 := by
    rw [Nat.shiftLeft_eq, u32_of_lt]
    · ring
    · norm_num
      omega
  unfold sortKeyHash
  rw [hz, Nat.zero_or, e0, e1]
  have s1 : 2 ^ 16 * a0 ||| 2 ^ 8 * a1 = 2 ^ 16 * a0 + 2 ^ 8 * a1 :=
    (Nat.mul_add_lt_is_or (by norm_num; omega) a0).symm
  have s2 : 2 ^ 16 * a0 + 2 ^ 8 * a1 = 2 ^ 8 * (2 ^ 8 * a0 + a1) := by ring
  rw [s1, s2, ← Nat.mul_add_lt_is_or (by norm_num; omega) (2 ^ 8 * a0 + a1)]
  ring

/-- C15: for pass priorities, model priorities and pass indices below 256 the sort key of
`RenderDrawQueue::add` orders as the triple `(passPriority, modelPriority, passIdx)` does
lexicographically; equal keys come from equal triples, and the key is the sum of its three
fields, which do not overlap. -/
theorem sortKeyHash_lex (a0 a1 a2 b0 b1 b2 : Nat) (ha0 : a0 < 256) (ha1 : a1 < 256)
    (ha2 : a2 < 256) (hb0 : b0 < 256) (hb1 : b1 < 256) (hb2 : b2 < 256) :
    (sortKeyHash a0 a1 a2 < sortKeyHash b0 b1 b2 ↔
      a0 < b0 ∨ (a0 = b0 ∧ (a1 < b1 ∨ (a1 = b1 ∧ a2 < b2)))) ∧
    (sortKeyHash a0 a1 a2 = sortKeyHash b0 b1 b2 → a0 = b0 ∧ a1 = b1 ∧ a2 = b2) ∧
    sortKeyHash a0 a1 a2 = a0 * 2 ^ 16 + a1 * 2 ^ 8 + a2 := by
  rw [sortKeyHash_eq_sum a0 a1 a2 ha0 ha1 ha2, sortKeyHash_eq_sum b0 b1 b2 hb0 hb1 hb2]
  refine ⟨?_, ?_, ?_⟩
  · omega
  · omega
  · norm_num

/-- C15 at concrete triples: `(1, 255, 255)` is below `(2, 0, 0)` and so are their keys. -/
theorem sortKeyHash_lex_witness :
    (sortKeyHash 1 255 255 < sortKeyHash 2 0 0 ↔
      1 < 2 ∨ (1 = 2 ∧ (255 < 0 ∨ (255 = 0 ∧ 255 < 0)))) ∧
    sortKeyHash 1 255 255 = 1 * 2 ^ 16 + 255 * 2 ^ 8 + 255 :=
  ⟨(sortKeyHash_lex 1 255 255 2 0 0 (by decide) (by decide) (by decide) (by decide)
      (by decide) (by decide)).1,
    (sortKeyHash_lex 1 255 255 2 0 0 (by decide) (by decide) (by decide) (by decide)
      (by decide) (by decide)).2.2⟩

end cc.render

/-! ## Order of instances the comparator cannot tell apart -/

namespace cc.render

/-- C13, as stated, fails: two sub-models, 11 and 12, of one model share sort key 8421376,
depth 5 and shader 7. Queued as 11, 12 they stay 11, 12 after `sortOpaqueOrCutout`; queued as
12, 11 they stay 12, 11. -/
theorem sortOpaqueOrCutout_order_counterexample :
    List.Perm [(⟨11, 9, 8421376, 5, 7, 0⟩ : DrawInstance), ⟨12, 9, 8421376, 5, 7, 0⟩]
      [⟨12, 9, 8421376, 5, 7, 0⟩, ⟨11, 9, 8421376, 5, 7, 0⟩] ∧
    (RenderDrawQueue.sortOpaqueOrCutout
        ⟨[⟨11, 9, 8421376, 5, 7, 0⟩, ⟨12, 9, 8421376, 5, 7, 0⟩]⟩).instances =
      [⟨11, 9, 8421376, 5, 7, 0⟩, ⟨12, 9, 8421376, 5, 7, 0⟩] ∧
    (RenderDrawQueue.sortOpaqueOrCutout
        ⟨[⟨12, 9, 8421376, 5, 7, 0⟩, ⟨11, 9, 8421376, 5, 7, 0⟩]⟩).instances =
      [⟨12, 9, 8421376, 5, 7, 0⟩, ⟨11, 9, 8421376, 5, 7, 0⟩] ∧
    RenderDrawQueue.sortOpaqueOrCutout
        ⟨[⟨11, 9, 8421376, 5, 7, 0⟩, ⟨12, 9, 8421376, 5, 7, 0⟩]⟩ ≠
      RenderDrawQueue.sortOpaqueOrCutout
        ⟨[⟨12, 9, 8421376, 5, 7, 0⟩, ⟨11, 9, 8421376, 5, 7, 0⟩]⟩ :=
  ⟨List.Perm.swap _ _ [], by decide, by decide, by decide⟩

/-- C13, amended: for two instance sequences that are permutations of one another the results
of `sortOpaqueOrCutout` are permutations of one another and show the same sequence of tuples
`(hash, depth, shaderID)`; the results are the same sequence when no two different instances
agree on the whole tuple. -/
theorem sortOpaqueOrCutout_of_perm (q₁ q₂ : RenderDrawQueue)
    (hp : q₁.instances.Perm q₂.instances) :
    q₁.sortOpaqueOrCutout.instances.Perm q₂.sortOpaqueOrCutout.instances ∧
    q₁.sortOpaqueOrCutout.instances.map (fun d => (d.hash, d.depth, d.shaderID)) =
      q₂.sortOpaqueOrCutout.instances.map (fun d => (d.hash, d.depth, d.shaderID)) ∧
    ((∀ a ∈ q₁.instances, ∀ b ∈ q₁.instances,
        a.hash = b.hash → a.depth = b.depth → a.shaderID = b.shaderID → a = b) →
      q₁.sortOpaqueOrCutout = q₂.sortOpaqueOrCutout) := by
  have p₁ : q₁.sortOpaqueOrCutout.instances.Perm q₁.instances := stdSort_perm _ _
  have p₂ : q₂.sortOpaqueOrCutout.instances.Perm q₂.instances := stdSort_perm _ _
  have pp : q₁.sortOpaqueOrCutout.instances.Perm q₂.sortOpaqueOrCutout.instances :=
    (p₁.trans hp).trans p₂.symm
  have s₁ : q₁.sortOpaqueOrCutout.instances.Pairwise (fun a b => opaqueKey a ≤ opaqueKey b) :=
    stdSort_pairwise_key opaqueKey opaqueLess opaqueLess_iff q₁.instances
  have s₂ : q₂.sortOpaqueOrCutout.instances.Pairwise (fun a b => opaqueKey a ≤ opaqueKey b) :=
    stdSort_pairwise_key opaqueKey opaqueLess opaqueLess_iff q₂.instances
  refine ⟨pp, ?_, fun hinj => ?_⟩
  · have hk := sorted_perm_keys_eq opaqueKey _ _ pp s₁ s₂
    have hm := congrArg
      (List.map (fun k : ℕ ×ₗ ℚ ×ₗ ℕ => ((ofLex k).1, (ofLex (ofLex k).2).1, (ofLex (ofLex k).2).2)))
      hk
    simpa [List.map_map, Function.comp, opaqueKey] using hm
  · have hinj2 : ∀ a ∈ q₁.instances, ∀ b ∈ q₁.instances, opaqueKey a = opaqueKey b → a = b := by
      intro a ha b hb hab
      obtain ⟨h1, h2, h3⟩ := (opaqueKey_eq_iff a b).1 hab
      exact hinj a ha b hb h1 h2 h3
    haveI : IsAntisymm DrawInstance
        (fun a b => opaqueKey a ≤ opaqueKey b ∧ (opaqueKey a = opaqueKey b → a = b)) :=
      ⟨fun a b hab hba => hab.2 (le_antisymm hab.1 hba.1)⟩
    have t₁ : q₁.sortOpaqueOrCutout.instances.Sorted
        (fun a b => opaqueKey a ≤ opaqueKey b ∧ (opaqueKey a = opaqueKey b → a = b)) :=
      List.Pairwise.imp_of_mem
        (fun {a b} ha hb hab => ⟨hab, hinj2 a (p₁.subset ha) b (p₁.subset hb)⟩) s₁
    have t₂ : q₂.sortOpaqueOrCutout.instances.Sorted
        (fun a b => opaqueKey a ≤ opaqueKey b ∧ (opaqueKey a = opaqueKey b → a = b)) :=
      List.Pairwise.imp_of_mem
        (fun {a b} ha hb hab =>
          ⟨hab, hinj2 a (hp.symm.subset (p₂.subset ha)) b (hp.symm.subset (p₂.subset hb))⟩) s₂
    have he := List.eq_of_perm_of_sorted pp t₁ t₂
    cases h₁ : q₁.sortOpaqueOrCutout with
    | mk i₁ =>
      cases h₂ : q₂.sortOpaqueOrCutout with
      | mk i₂ =>
        rw [h₁, h₂] at he
        exact congrArg RenderDrawQueue.mk he

/-- C13 at concrete queues: the sequences A, B, C and C, A, B of the opaque example, whose
tuples differ, are sorted to the same sequence. -/
theorem sortOpaqueOrCutout_of_perm_witness :
    List.Perm [(⟨1, 0, 10, 5, 0, 0⟩ : DrawInstance), ⟨2, 0, 10, 2, 0, 0⟩, ⟨3, 0, 5, 9, 0, 0⟩]
      [⟨3, 0, 5, 9, 0, 0⟩, ⟨1, 0, 10, 5, 0, 0⟩, ⟨2, 0, 10, 2, 0, 0⟩] ∧
    RenderDrawQueue.sortOpaqueOrCutout
        ⟨[⟨1, 0, 10, 5, 0, 0⟩, ⟨2, 0, 10, 2, 0, 0⟩, ⟨3, 0, 5, 9, 0, 0⟩]⟩ =
      RenderDrawQueue.sortOpaqueOrCutout
        ⟨[⟨3, 0, 5, 9, 0, 0⟩, ⟨1, 0, 10, 5, 0, 0⟩, ⟨2, 0, 10, 2, 0, 0⟩]⟩ :=
  ⟨by decide,
    (sortOpaqueOrCutout_of_perm
      ⟨[⟨1, 0, 10, 5, 0, 0⟩, ⟨2, 0, 10, 2, 0, 0⟩, ⟨3, 0, 5, 9, 0, 0⟩]⟩
      ⟨[⟨3, 0, 5, 9, 0, 0⟩, ⟨1, 0, 10, 5, 0, 0⟩, ⟨2, 0, 10, 2, 0, 0⟩]⟩ (by decide)).2.2
      (by decide)⟩

end cc.render

/-! ## The pipeline states bound for one batch -/

namespace cc.render

theorem dedupAdjacent_cons_cons_eq (a b : Ptr) (rest : List Ptr) (h : a = b) :
    dedupAdjacent (a :: b :: rest) = dedupAdjacent (b :: rest) := by
  simp [dedupAdjacent, h]

theorem dedupAdjacent_cons_cons_ne (a b : Ptr) (rest : List Ptr) (h : ¬ a = b) :
    dedupAdjacent (a :: b :: rest) = a :: dedupAdjacent (b :: rest) := by
  simp [dedupAdjacent, h]

theorem dedupAdjacent_cons_head (l : List Ptr) :
    ∀ a : Ptr, ∃ t : List Ptr, dedupAdjacent (a :: l) = a :: t := by
  induction l with
  | nil => intro a; exact ⟨[], rfl⟩
  | cons b rest ih =>
    intro a
    by_cases h : a = b
    · obtain ⟨t, ht⟩ := ih b
      refine ⟨t, ?_⟩
      simp only [dedupAdjacent, h, if_true]
      exact ht
    · exact ⟨dedupAdjacent (b :: rest), by simp [dedupAdjacent, h]⟩

/-- The states bound by the instance loop started with `lastPSO` are the states of the
nonzero-count instances behind `lastPSO`, runs of equal neighbours reduced to one, without the
leading `lastPSO`. -/
theorem bound_recordInstancedItems_dedup (env : Scene) (renderPass ds : Ptr) (offset : Nat)
    (dynamicOffsets : Option (List Nat)) (drawPass : Ptr) (bufferOffsets : List Nat)
    (l : List InstancedItem) :
    ∀ lastPSO : Ptr,
      boundPipelineStates (recordInstancedItems env renderPass drawPass ds offset dynamicOffsets
          bufferOffsets lastPSO l) =
        (dedupAdjacent (lastPSO ::
          (l.filter (fun inst => inst.count ≠ 0)).map
            (instancePipelineState env renderPass drawPass))).tail := by
  induction l with
  | nil => intro lastPSO; rfl
  | cons inst rest ih =>
    intro lastPSO
    by_cases h : inst.count = 0
    · rw [recordInstancedItems_skip env renderPass ds offset dynamicOffsets drawPass
        bufferOffsets lastPSO inst rest h, ih lastPSO]
      simp [h]
    · rw [bound_recordInstancedItems_cons env renderPass ds offset dynamicOffsets drawPass
        bufferOffsets lastPSO inst rest h, ih]
      have hf : (inst :: rest).filter (fun inst => inst.count ≠ 0) =
          inst :: rest.filter (fun inst => inst.count ≠ 0) := by simp [h]
      rw [hf, List.map_cons]
      obtain ⟨t, ht⟩ := dedupAdjacent_cons_head
        ((rest.filter (fun inst => inst.count ≠ 0)).map
          (instancePipelineState env renderPass drawPass))
        (instancePipelineState env renderPass drawPass inst)
      have hpso : env.getOrCreatePipelineState drawPass inst.shader inst.ia renderPass 0 =
          instancePipelineState env renderPass drawPass inst := rfl
      rw [hpso]
      by_cases hl : lastPSO = instancePipelineState env renderPass drawPass inst
      · rw [dedupAdjacent_cons_cons_eq _ _ _ hl, if_neg (not_not.2 hl), List.nil_append]
      · rw [dedupAdjacent_cons_cons_ne _ _ _ hl, if_pos hl, ht]
        rfl

/-- C14: in the segment of a batch with pending models, when the lookup returns no null
pipeline state for the nonzero-count instances of the batch, the states bound by
`bindPipelineState` are the states of those instances, in order, with every run of equal
neighbours reduced to one. The loop starts every batch with a null `lastPSO`, so the first
bind of the segment is the state of the first nonzero-count instance. -/
theorem batch_binds_dedup (env : Scene) (renderPass ds : Ptr) (offset : Nat)
    (dynamicOffsets : Option (List Nat)) (p : Ptr)
    (hpending : (env.instancedBuffer p).hasPendingModels = true)
    (hnull : ∀ inst ∈ (env.instancedBuffer p).instances, inst.count ≠ 0 →
      instancePipelineState env renderPass (env.instancedBuffer p).pass inst ≠ nullptr) :
    boundPipelineStates (batchSegment env renderPass ds offset dynamicOffsets p) =
      dedupAdjacent
        (((env.instancedBuffer p).instances.filter (fun inst => inst.count ≠ 0)).map
          (instancePipelineState env renderPass (env.instancedBuffer p).pass)) ∧
    (∀ (inst : InstancedItem) (rest : List InstancedItem),
      (env.instancedBuffer p).instances.filter (fun inst => inst.count ≠ 0) = inst :: rest →
      (boundPipelineStates (batchSegment env renderPass ds offset dynamicOffsets p)).head? =
        some (instancePipelineState env renderPass (env.instancedBuffer p).pass inst)) := by
  have hseg : boundPipelineStates (batchSegment env renderPass ds offset dynamicOffsets p) =
      dedupAdjacent
        (((env.instancedBuffer p).instances.filter (fun inst => inst.count ≠ 0)).map
          (instancePipelineState env renderPass (env.instancedBuffer p).pass)) := by
    rw [batchSegment_pending env renderPass ds offset dynamicOffsets p hpending]
    have hb : ∀ cmds : List Cmd,
        boundPipelineStates
          (Cmd.bindDescriptorSet SetIndex.materialSet
            (env.passDescriptorSet (env.instancedBuffer p).pass) [] :: cmds) =
          boundPipelineStates cmds := by
      intro cmds
      simp [boundPipelineStates]
    rw [hb, bound_recordInstancedItems_dedup]
    cases hl : (env.instancedBuffer p).instances.filter (fun inst => inst.count ≠ 0) with
    | nil => rfl
    | cons inst rest =>
      have hmem : inst ∈ (env.instancedBuffer p).instances.filter
          (fun inst => inst.count ≠ 0) := by
        rw [hl]
        exact List.mem_cons_self _ _
      obtain ⟨hi, hc⟩ := List.mem_filter.1 hmem
      have hne := hnull inst hi (by simpa using hc)
      rw [List.map_cons, dedupAdjacent_cons_cons_ne _ _ _ (Ne.symm hne)]
      rfl
  refine ⟨hseg, fun inst rest hl => ?_⟩
  rw [hseg, hl, List.map_cons]
  obtain ⟨t, ht⟩ := dedupAdjacent_cons_head
    (rest.map (instancePipelineState env renderPass (env.instancedBuffer p).pass))
    (instancePipelineState env renderPass (env.instancedBuffer p).pass inst)
  rw [ht]
  rfl

/-- C14 at a concrete batch: batch 1 of `bindScene` has pending models and the instance
states 1534, 1534, (count 0), 1584, 1534, none of them null; its segment binds 1534, 1584,
1534: the repeated 1534 is bound once, the zero-count record binds nothing, and 1534 is bound
again after 1584. -/
theorem batch_binds_dedup_witness :
    (bindScene.instancedBuffer 1).hasPendingModels = true ∧
    (∀ inst ∈ (bindScene.instancedBuffer 1).instances, inst.count ≠ 0 →
      instancePipelineState bindScene 0 (bindScene.instancedBuffer 1).pass inst ≠ nullptr) ∧
    ((bindScene.instancedBuffer 1).instances.filter (fun inst => inst.count ≠ 0)).map
        (instancePipelineState bindScene 0 (bindScene.instancedBuffer 1).pass) =
      [1534, 1534, 1584, 1534] ∧
    boundPipelineStates (batchSegment bindScene 0 0 0 none 1) = [1534, 1584, 1534] ∧
    boundPipelineStates (batchSegment bindScene 0 0 0 none 1) =
      dedupAdjacent
        (((bindScene.instancedBuffer 1).instances.filter (fun inst => inst.count ≠ 0)).map
          (instancePipelineState bindScene 0 (bindScene.instancedBuffer 1).pass)) :=
  ⟨by decide, by decide, by decide, by decide,
    (batch_binds_dedup bindScene 0 0 0 none 1 (by decide) (by decide)).1⟩

end cc.render
